import Mathlib

/-!
Shallow embedding of the text-normalization and CSV-pipeline functions of the
`drama_calendar` repository (Python scraping scripts), together with proofs
about the claims of its specification.

Conventions of the embedding:
* Python strings are modelled as `List Char` (wrapped in `String` at the API
  boundary).  Digits are modelled as ASCII `'0'..'9'`; the whitespace class of
  Python's `\s` (for `str` patterns) is modelled by `isPySpace`.
* Regular-expression operations of the source are implemented directly as
  scanning functions with the same leftmost / greedy / lazy semantics as
  Python's `re` module; backtracking alternatives are enumerated in order and
  the first success is taken.
* `None` results of the Python code are `Option.none`; functions that catch
  all exceptions and fall back are total functions returning the fallback.
-/

/-- ASCII decimal digit, the model of Python's `\d` / `str.isdigit` on the
inputs of interest. -/
def isPyDigit (c : Char) : Bool :=
  48 ≤ c.toNat && c.toNat ≤ 57

/-- Model of Python's `\s` whitespace class (and of `str.strip()` /
`str.isspace`) for `str` patterns: ASCII whitespace plus the common Unicode
space characters. -/
def isPySpace (c : Char) : Bool :=
  c.toNat = 32 || c.toNat = 9 || c.toNat = 10 || c.toNat = 13 ||
  c.toNat = 11 || c.toNat = 12 || (28 ≤ c.toNat && c.toNat ≤ 31) ||
  c.toNat = 133 || c.toNat = 160 || c.toNat = 5760 ||
  (8192 ≤ c.toNat && c.toNat ≤ 8202) || c.toNat = 8232 || c.toNat = 8233 ||
  c.toNat = 8239 || c.toNat = 8287 || c.toNat = 12288

/-- The control characters removed by `episode_bild.strip_ctrl`
(`[\x00-\x08\x0b\x0c\x0e-\x1f]`). -/
def isCtrlEB (c : Char) : Bool :=
  c.toNat ≤ 8 || c.toNat = 11 || c.toNat = 12 || (14 ≤ c.toNat && c.toNat ≤ 31)

/-- Hangul character (syllables plus jamo blocks); used to state the
"Hangul content is preserved" claims. -/
def isHangul (c : Char) : Bool :=
  (4352 ≤ c.toNat && c.toNat ≤ 4607) || (12592 ≤ c.toNat && c.toNat ≤ 12687) ||
  (44032 ≤ c.toNat && c.toNat ≤ 55203)

/-- Model of Python's word-character class `\w` (Unicode mode), restricted to
the alphabets that occur in this repository's data: ASCII alphanumerics,
underscore, and Hangul. -/
def isPyWord (c : Char) : Bool :=
  c.isAlphanum || c = '_' || isHangul c

/-- Value of a list of ASCII digit characters, as computed by Python's
`int(...)` on a digit string (leading zeros allowed). -/
def digitsVal (l : List Char) : Nat :=
  l.foldl (fun a c => 10 * a + (c.toNat - 48)) 0

/-- `l.dropWhile p` from the right: removes the longest suffix whose
characters satisfy `p`. -/
def dropEndWhile (p : Char → Bool) (l : List Char) : List Char :=
  (l.reverse.dropWhile p).reverse

/-- Python `str.strip()`: remove leading and trailing whitespace. -/
def pyStrip (l : List Char) : List Char :=
  dropEndWhile isPySpace (l.dropWhile isPySpace)

/-- Scan for the first `']'`, returning the remainder after it; the tail of a
footnote match `\[[^\]]*\]` started at a  `'['`. -/
def footClose : List Char → Option (List Char)
  | [] => none
  | c :: r => if c = ']' then some r else footClose r

/-- `re.sub(r"\[[^\]]*\]", "", s)`, fuel-driven (fuel instantiated with the
input length, which bounds the number of scanning steps): remove every
(leftmost, non-overlapping) bracketed footnote; a `'['` with no later `']'`
is kept. -/
def removeFootF : Nat → List Char → List Char
  | 0, l => l
  | _ + 1, [] => []
  | fuel + 1, c :: r =>
    if c = '[' then
      match footClose r with
      | some rest => removeFootF fuel rest
      | none => c :: removeFootF fuel r
    else c :: removeFootF fuel r

def removeFoot (l : List Char) : List Char :=
  removeFootF l.length l

/-- Worker for whitespace-run collapsing: `inRun` records whether the previous
character was part of a whitespace run already emitted as `' '`. -/
def collWSAux (inRun : Bool) : List Char → List Char
  | [] => []
  | c :: r =>
    if isPySpace c then
      if inRun then collWSAux true r else ' ' :: collWSAux true r
    else c :: collWSAux false r

/-- `re.sub(r"\s+", " ", s)`: every maximal whitespace run becomes a single
space. -/
def collapseWS (l : List Char) : List Char :=
  collWSAux false l

/-- `drama_weekly.clean_text` (also `drama_calendar_2025.clean_text`):
footnote removal, whitespace collapsing, strip; empty input passes through. -/
def cleanTextDW (s : String) : String :=
  if s = "" then "" else ⟨pyStrip (collapseWS (removeFoot s.toList))⟩

/-- `episode_bild.strip_ctrl`. -/
def stripCtrl (l : List Char) : List Char :=
  l.filter (fun c => !isCtrlEB c)

/-- `s.replace("\r\n", "\n").replace("\r", "\n")` of `episode_bild.clean_text`. -/
def replaceCR : List Char → List Char
  | [] => []
  | c :: r =>
    if c = '\r' then
      match r with
      | d :: r2 => if d = '\n' then '\n' :: replaceCR r2 else '\n' :: replaceCR (d :: r2)
      | [] => ['\n']
    else c :: replaceCR r

/-- `episode_bild.clean_text`: footnote removal, CR/LF normalization,
whitespace collapsing, control-character removal, strip. -/
def cleanTextEB (s : String) : String :=
  if s = "" then ""
  else ⟨pyStrip (stripCtrl (collapseWS (replaceCR (removeFoot s.toList))))⟩

/-- The cleaned form of the text that follows a leading digit run: on
`ds ++ rest` with `ds` a nonempty digit run, `episode_bild.clean_text`
decomposes as `ds` followed by this value (theorem `cleanTextEB_leading`). -/
def cleanTailEB (rest : List Char) : List Char :=
  dropEndWhile isPySpace
    ((collWSAux false (replaceCR (removeFoot rest))).filter (fun c => !isCtrlEB c))

/-- The bracket glyphs removed by `drama_weekly.strip_brackets`
(`[《》〈〉「」『』«»<>]`). -/
def dwGlyph (c : Char) : Bool :=
  c.toNat = 12298 || c.toNat = 12299 || c.toNat = 12296 || c.toNat = 12297 ||
  c.toNat = 12300 || c.toNat = 12301 || c.toNat = 12302 || c.toNat = 12303 ||
  c.toNat = 171 || c.toNat = 187 || c.toNat = 60 || c.toNat = 62

/-- The character class of `drama_2025_fin.clean_title_brackets`
(`[《》〈〉«»「」『']|[<>]`): note `』` is absent while `『` and the ASCII
apostrophe are present. -/
def finGlyph (c : Char) : Bool :=
  c.toNat = 12298 || c.toNat = 12299 || c.toNat = 12296 || c.toNat = 12297 ||
  c.toNat = 171 || c.toNat = 187 || c.toNat = 12300 || c.toNat = 12301 ||
  c.toNat = 12302 || c.toNat = 39 || c.toNat = 60 || c.toNat = 62

/-- `re.sub(r"<<|>>", "", s)`: removes literal `<<` and `>>` pairs. -/
def removeLtLt : List Char → List Char
  | [] => []
  | c :: r =>
    if c = '<' then
      match r with
      | d :: r2 => if d = '<' then removeLtLt r2 else c :: removeLtLt (d :: r2)
      | [] => [c]
    else if c = '>' then
      match r with
      | d :: r2 => if d = '>' then removeLtLt r2 else c :: removeLtLt (d :: r2)
      | [] => [c]
    else c :: removeLtLt r

/-- `drama_weekly.strip_brackets`. -/
def strip_brackets (title : String) : String :=
  if title = "" then ""
  else ⟨pyStrip (collapseWS (removeLtLt (title.toList.filter (fun c => !dwGlyph c))))⟩

/-- `drama_2025_fin.clean_title_brackets` (non-string input maps to `""`,
which we do not model; strings go through the three substitutions). -/
def clean_title_brackets (t : String) : String :=
  ⟨pyStrip (collapseWS (removeLtLt (t.toList.filter (fun c => !finGlyph c))))⟩

/-- First maximal run of digits in a list (the capture of
`re.search(r"(\d+)", t)`), or `none` when the list has no digit. -/
def firstDigitRun : List Char → Option (List Char)
  | [] => none
  | c :: r => if isPyDigit c then some (c :: r.takeWhile isPyDigit) else firstDigitRun r

/-- `episode_bild.normalize_episode_no`: clean the text, then replace it by
`"<int>화"` built from the first digit run; a digit-free string stays as its
cleaned form. -/
def normalize_episode_no (s : String) : String :=
  match firstDigitRun (cleanTextEB s).toList with
  | some ds => toString (digitsVal ds) ++ "화"
  | none => cleanTextEB s

/-- One alternative of `DAY_PATTERN = (월|화|수|목|금|토|일)요일`. -/
def isDayChar (c : Char) : Bool :=
  c = '월' || c = '화' || c = '수' || c = '목' || c = '금' || c = '토' || c = '일'

/-- `re.search(DAY_PATTERN, t)` as a boolean: some position holds a day
character immediately followed by `요일`. -/
def hasDayTok : List Char → Bool
  | c1 :: c2 :: c3 :: r =>
    (isDayChar c1 && c2 = '요' && c3 = '일') || hasDayTok (c2 :: c3 :: r)
  | _ => false

/-- `re.search(r"(시간|분)", t)` as a boolean: `t` contains the substring
`시간` or the character `분`. -/
def hasHourMinTok : List Char → Bool
  | c1 :: r =>
    (c1 = '분') ||
    (match r with
     | c2 :: _ => c1 = '시' && c2 = '간'
     | [] => false) ||
    hasHourMinTok r
  | [] => false

/-- Greedy `\d+` at the current position: the maximal digit run and the rest;
fails when the head is not a digit. -/
def takeDigits1 (l : List Char) : Option (List Char × List Char) :=
  match l with
  | c :: r =>
    if isPyDigit c then some (c :: r.takeWhile isPyDigit, r.dropWhile isPyDigit)
    else none
  | [] => none

/-- `\s*` at the current position (greedy; the following token in every
pattern used here is a non-space literal or digit, so maximal munch is
exact). -/
def skipWS (l : List Char) : List Char :=
  l.dropWhile isPySpace

/-- Literal match at the current position. -/
def eatLit : List Char → List Char → Option (List Char)
  | [], l => some l
  | p :: ps, c :: r => if c = p then eatLit ps r else none
  | _ :: _, [] => none

/-- Match of `(\d+)\s*시간\s*(\d+)\s*분` anchored at the current position. -/
def matchHourMinAt (l : List Char) : Option (Nat × Nat) := do
  let (d1, l) ← takeDigits1 l
  let l ← eatLit ['시', '간'] (skipWS l)
  let (d2, l) ← takeDigits1 (skipWS l)
  let _ ← eatLit ['분'] (skipWS l)
  pure (digitsVal d1, digitsVal d2)

/-- Match of `(\d+)\s*시간` anchored at the current position. -/
def matchHourAt (l : List Char) : Option Nat := do
  let (d1, l) ← takeDigits1 l
  let _ ← eatLit ['시', '간'] (skipWS l)
  pure (digitsVal d1)

/-- Match of `(\d+)\s*분` anchored at the current position. -/
def matchMinAt (l : List Char) : Option Nat := do
  let (d1, l) ← takeDigits1 l
  let _ ← eatLit ['분'] (skipWS l)
  pure (digitsVal d1)

/-- `re.search`: try the anchored matcher at every position from the left and
return the first success. -/
def searchAt {α : Type} (m : List Char → Option α) : List Char → Option α
  | [] => m []
  | c :: r => (m (c :: r)).orElse (fun _ => searchAt m r)

/-- `drama_weekly.parse_runtime_minutes_strict`: clean the text; refuse it as
a runtime when it carries schedule features (a day-of-week token, `~`, or
`:`) or when it has neither an `시간` nor a `분` token; otherwise parse
`H시간 M분`, `H시간`, or `M분`, in that order. -/
def parse_runtime_minutes_strict (text : String) : Option Nat :=
  let t := (cleanTextDW text).toList
  if hasDayTok t || t.any (fun c => c = '~') || t.any (fun c => c = ':') then none
  else if !hasHourMinTok t then none
  else
    match searchAt matchHourMinAt t with
    | some (h, m) => some (h * 60 + m)
    | none =>
      match searchAt matchHourAt t with
      | some h => some (h * 60)
      | none =>
        match searchAt matchMinAt t with
        | some m => some m
        | none => none

/-- Digit groups of a Python integer literal after the optional sign: a
digit, then digits with single `_` separators strictly between digits
(`int("1_0") = 10`, `int("1__0")` and `int("_1")` raise). -/
def pyIntDigits : List Char → Option Nat :=
  fun l =>
    match l with
    | c :: r => if isPyDigit c then go (c.toNat - 48) r else none
    | [] => none
where
  go (a : Nat) : List Char → Option Nat
    | [] => some a
    | c :: r =>
      if c = '_' then
        match r with
        | d :: r2 => if isPyDigit d then go (10 * a + (d.toNat - 48)) r2 else none
        | [] => none
      else if isPyDigit c then go (10 * a + (c.toNat - 48)) r
      else none

/-- Python `int(s)` on a string: optional surrounding whitespace, optional
sign, digit groups; any other shape raises (modelled as `none`). -/
def pyInt (l : List Char) : Option Int :=
  match pyStrip l with
  | [] => none
  | c :: r =>
    if c = '-' then (pyIntDigits r).map (fun n => -(n : Int))
    else if c = '+' then (pyIntDigits r).map (fun n => (n : Int))
    else (pyIntDigits (c :: r)).map (fun n => (n : Int))

/-- Split a list at every occurrence of the character `sep`
(Python `str.split(sep)`: `"".split(":") = [""]`, separators at the ends
produce empty fields). -/
def splitOnChar (sep : Char) : List Char → List (List Char)
  | [] => [[]]
  | c :: r =>
    if c = sep then [] :: splitOnChar sep r
    else
      match splitOnChar sep r with
      | f :: rest => (c :: f) :: rest
      | [] => [[c]]

/-- `start_time.split("~", 1)`: split at the first `~` only. -/
def splitOnceTilde : List Char → Option (List Char × List Char)
  | [] => none
  | c :: r =>
    if c = '~' then some ([], r)
    else (splitOnceTilde r).map (fun p => (c :: p.1, p.2))

/-- `h, m = map(int, part.split(":"))`: succeeds only when the split yields
exactly two fields and both parse as Python ints. -/
def parseHM (l : List Char) : Option (Int × Int) :=
  match splitOnChar ':' l with
  | [a, b] => do
    let h ← pyInt a
    let m ← pyInt b
    pure (h, m)
  | _ => none

/-- `drama_weekly.maybe_infer_runtime`: keep a non-empty labelled runtime;
otherwise, when `start_time` contains `~` and both sides parse as `H:M`,
return `"<diff>분"` when the (midnight-wrapped) difference lies in
`[min_ok, max_ok]`; in every other case (including any parse failure, which
the source catches) return the original runtime. -/
def maybe_infer_runtime (start_time runtime : String)
    (min_ok : Int := 30) (max_ok : Int := 120) : String :=
  if runtime ≠ "" then runtime
  else if start_time = "" then runtime
  else
    match splitOnceTilde start_time.toList with
    | none => runtime
    | some (left, right) =>
      match parseHM left, parseHM right with
      | some (h1, m1), some (h2, m2) =>
        let start_minutes := h1 * 60 + m1
        let end_minutes := h2 * 60 + m2
        let diff := end_minutes - start_minutes
        let diff := if diff < 0 then diff + 24 * 60 else diff
        if min_ok ≤ diff ∧ diff ≤ max_ok then toString diff ++ "분" else runtime
      | _, _ => runtime

/-- A parsed episode row of `episode_bild.py` (the dict produced by the table
parsers). -/
structure EpRow where
  episode_no : String
  broadcast_at : String
  title : String
  description : String
deriving DecidableEq, Repr

/-- The sort key of `episode_bild.parse_document_for_episodes.ep_key`: the
first integer of `episode_no`, or `10**9` when there is none. -/
def ep_key (d : EpRow) : Nat :=
  match firstDigitRun d.episode_no.toList with
  | some ds => digitsVal ds
  | none => 10 ^ 9

/-- `episode_bild.parse_document_for_episodes`, abstracted over the HTML
layer: the per-table parse results are given as input lists of rows; the
function concatenates the non-empty ones and stably sorts by `ep_key`
(Python `list.sort` is stable, as is `List.mergeSort`). -/
def parse_document_rows (tables : List (List EpRow)) : List EpRow :=
  ((tables.filter (fun p => p ≠ [])).flatMap id).mergeSort
    (fun a b => ep_key a ≤ ep_key b)

/-- An output row of `episode_bild.main`. -/
structure EpOutRow where
  drama_title : String
  episode_no : String
  title : String
  broadcast_at : String
  description : String
deriving DecidableEq, Repr

/-- The collection loop plus final cleanup of `episode_bild.main`: every
parsed episode of every title becomes one output row (titles with no episodes
contribute nothing); each field is passed through `strip_ctrl`.  No
de-duplication or merging of equal episode numbers happens anywhere. -/
def episodeBildOutRows (items : List (String × List EpRow)) : List EpOutRow :=
  (items.flatMap fun it =>
    it.2.map fun ep =>
      ({ drama_title := it.1, episode_no := ep.episode_no, title := ep.title,
         broadcast_at := ep.broadcast_at, description := ep.description } : EpOutRow)).map
    fun (r : EpOutRow) =>
      { drama_title := ⟨stripCtrl r.drama_title.toList⟩,
        episode_no := ⟨stripCtrl r.episode_no.toList⟩,
        title := ⟨stripCtrl r.title.toList⟩,
        broadcast_at := ⟨stripCtrl r.broadcast_at.toList⟩,
        description := ⟨stripCtrl r.description.toList⟩ }

/-- What a script does at startup: proceed past its checks, or exit with the
given process exit code after printing the given fatal message
(`raise SystemExit("msg")` exits with code 1; a plain `return` from `main`
exits with code 0). -/
inductive StartupResult where
  | proceed : StartupResult
  | exit (code : Nat) (msg : String) : StartupResult
deriving DecidableEq, Repr

/-- The required-column checks of `episode.py main` (steps 1-2): both input
CSVs must carry their required columns, else `SystemExit` with a fatal
message (exit code 1; the interpolated set of missing names is elided from
the modelled message). -/
def episodeMainStartup (cols1 cols2 : List String) : StartupResult :=
  if ¬ ("title" ∈ cols1 ∧ "runtime" ∈ cols1) then
    .exit 1 "drama_weekly.csv에 필요한 컬럼이 없습니다"
  else if ¬ ("drama_title" ∈ cols2 ∧ "runtime_min" ∈ cols2) then
    .exit 1 "episode_bild.csv에 필요한 컬럼이 없습니다"
  else .proceed

/-- Python `a or b` on optional strings (an empty string is falsy). -/
def pyOrStr (a b : Option String) : Option String :=
  if a.getD "" ≠ "" then a else b

/-- The startup checks of `tmdb_image_batch.main`: API key from the flag or
the `TMDB_API_KEY` environment variable, input-file existence, then
`detect_title_column` over the candidates `title`, `drama_title`, `제목`,
`name`; every failure is a `SystemExit` (exit code 1). -/
def tmdbImageBatchStartup (flagKey envKey : Option String) (inputExists : Bool)
    (cols : List String) : StartupResult :=
  if (pyOrStr flagKey envKey).getD "" = "" then
    .exit 1 "TMDB API 키가 없습니다. --api-key 또는 TMDB_API_KEY 환경변수로 설정해 주세요."
  else if ¬ inputExists then
    .exit 1 "입력 CSV를 찾을 수 없습니다"
  else if "title" ∈ cols ∨ "drama_title" ∈ cols ∨ "제목" ∈ cols ∨ "name" ∈ cols then
    .proceed
  else
    .exit 1 "제목 컬럼을 찾을 수 없습니다. (지원: [title, drama_title, 제목, name])"

/-- The required-column check of `episode_bild.main`: when none of `title`,
`제목`, `drama_title` is present the script prints the message and does a
plain `return`, i.e. the process exits normally with code 0. -/
def episodeBildStartup (cols : List String) : StartupResult :=
  if "title" ∈ cols ∨ "제목" ∈ cols ∨ "drama_title" ∈ cols then .proceed
  else .exit 0 "CSV에 \x27title\x27 또는 \x27제목\x27 또는 \x27drama_title\x27 컬럼이 없습니다."

/-- `unicodedata.normalize("NFC", s)`, modelled as the identity: the titles
this job joins on are already NFC-composed Hangul, and no claim proved below
depends on composition behaviour. -/
def nfc (s : String) : String := s

/-- `episode.nfc_strip`: NFC-normalize, strip, collapse interior whitespace
runs to one space. -/
def nfc_strip (s : String) : String :=
  ⟨collapseWS (pyStrip (nfc s).toList)⟩

/-- `episode.normalize_title`: the join key (case preserved, whitespace
cleaned only). -/
def normalize_title (s : String) : String :=
  nfc_strip s

/-- `re.sub(r"\s*분\s*$", "", s)`: strip one trailing `분` together with the
whitespace around it; no match leaves the string unchanged. -/
def dropMinSuffix (l : List Char) : List Char :=
  let l2 := dropEndWhile isPySpace l
  match l2.getLast? with
  | some c => if c = '분' then dropEndWhile isPySpace l2.dropLast else l
  | none => l

/-- `episode.normalize_runtime_to_minutes_label`: `NaN` (modelled `none`)
gives `""`; a cell with a digit gives `"<int>분"` from its first digit run;
otherwise the cleaned cell re-suffixed with `분` (empty gives `""`). -/
def normalize_runtime_to_minutes_label (x : Option String) : String :=
  match x with
  | none => ""
  | some s =>
    match firstDigitRun s.toList with
    | some ds => toString (digitsVal ds) ++ "분"
    | none =>
      let s1 := (nfc_strip s).toList
      let s2 := dropMinSuffix s1
      if s2 ≠ [] then String.mk s2 ++ "분" else ""

/-- A row of `drama_weekly.csv` as read by `episode.py` (`runtime` may be a
missing cell). -/
structure WRow where
  title : String
  runtime : Option String
deriving DecidableEq, Repr

/-- A row of `episode_bild.csv` as read and rewritten by `episode.py`. -/
structure ERow where
  drama_title : String
  episode_no : String
  title : String
  broadcast_at : String
  runtime_min : Option String
  description : String
deriving DecidableEq, Repr

/-- Steps 3-4 of `episode.py main`: the key → runtime dictionary built from
table one (`drop_duplicates(keep="first")` makes the first occurrence of a
key win; `dropna` on the key column is a no-op because keys are strings). -/
def runtimeMapLookup (t1 : List WRow) (k : String) : Option (Option String) :=
  (t1.find? (fun r => normalize_title r.title = k)).map (fun r => r.runtime)

/-- Steps 3-6 of `episode.py main` (the runtime-merge job): rows of table two
whose normalized title key appears in table one get their `runtime_min`
overwritten with the normalized runtime label; all other rows and all other
cells pass through; the helper key column is dropped from the output. -/
def mergeJob (t1 : List WRow) (t2 : List ERow) : List ERow :=
  t2.map fun r =>
    match runtimeMapLookup t1 (normalize_title r.drama_title) with
    | some v => { r with runtime_min := some (normalize_runtime_to_minutes_label v) }
    | none => r

/-- Uniqueness of the normalized title keys of table one (the hypothesis of
the merge-idempotence claim). -/
def keysUnique (t1 : List WRow) : Prop :=
  (t1.map (fun r => normalize_title r.title)).Nodup

/-- The `th`/`td` cells of the tables a document yields under the two
selectors of `descriptions.py`: `primary` holds the tables matched by
`COMMON_SELECTOR_PRIMARY` (the narrow site-specific paths) and `article`
those matched by the broad fallback `article table`; each table is its list
of cell texts (each cell already `get_text(" ", strip=True)`). -/
structure DocTables where
  primary : List (List String)
  article : List (List String)
deriving DecidableEq, Repr

/-- `re.sub(r"\s{2,}", " ", text)`, fuel-driven: whitespace runs of length
at least two become one space; a lone whitespace character stays. -/
def collapse2WSF : Nat → List Char → List Char
  | 0, l => l
  | _ + 1, [] => []
  | _ + 1, [c] => [c]
  | fuel + 1, c :: d :: r =>
    if isPySpace c then
      if isPySpace d then ' ' :: collapse2WSF fuel (r.dropWhile isPySpace)
      else c :: collapse2WSF fuel (d :: r)
    else c :: collapse2WSF fuel (d :: r)

def collapse2WS (l : List Char) : List Char :=
  collapse2WSF l.length l

/-- `descriptions.table_to_text_one_line`: join the cell texts with single
spaces, drop footnotes, replace newlines/carriage returns/tabs with spaces,
squeeze multi-whitespace, strip. -/
def table_to_text_one_line (cells : List String) : String :=
  if cells = [] then ""
  else
    let text := String.intercalate " " cells
    let l := removeFoot text.toList
    let l := l.map (fun c => if c = '\n' || c = '\r' || c = '\t' then ' ' else c)
    ⟨pyStrip (collapse2WS l)⟩

/-- `descriptions.pick_best_table`: Python `max(tables, key=len(cells))`,
which keeps the first table among those with the greatest cell count. -/
def pick_best_table (tables : List (List String)) : Option (List String) :=
  match tables with
  | [] => none
  | t :: ts => some (ts.foldl (fun best x => if x.length > best.length then x else best) t)

/-- The tail of `descriptions.extract_by_common_selector` after the
candidate list is fixed: serialize the best candidate, or `""` when there is
none. -/
def extractFromCandidates (candidates : List (List String)) : String :=
  if candidates.isEmpty then ""
  else
    match pick_best_table candidates with
    | some best => table_to_text_one_line best
    | none => ""

/-- `descriptions.extract_by_common_selector`: filter the primary tables to
those with at least one cell; only when none qualifies consult the fallback
selector; pick the best candidate and serialize it; no candidate at all
yields `""`. -/
def extract_by_common_selector (doc : DocTables) : String :=
  extractFromCandidates
    (if (doc.primary.filter (fun t => t.length > 0)).isEmpty
     then doc.article.filter (fun t => t.length > 0)
     else doc.primary.filter (fun t => t.length > 0))

/-- Meridiem context (`"AM"` / `"PM"` of the source). -/
inductive Meridiem where
  | AM : Meridiem
  | PM : Meridiem
deriving DecidableEq, Repr

/-- `drama_weekly.detect_ampm`: classify a captured meridiem word (after
`strip()`); `낮` and unknown words give no context. -/
def detect_ampm (w : Option String) : Option Meridiem :=
  match w with
  | none => none
  | some word =>
    let ws : String := ⟨pyStrip word.toList⟩
    if ws = "오전" ∨ ws = "AM" ∨ ws = "am" ∨ ws = "새벽" then some .AM
    else if ws = "오후" ∨ ws = "PM" ∨ ws = "pm" ∨ ws = "저녁" ∨ ws = "밤" ∨ ws = "늦은밤" then
      some .PM
    else none

/-- `drama_weekly.to_24h_hour`: clamp into `0..12`, then apply the meridiem
(`12 AM → 0`, `12 PM → 12`, `h PM → h+12`); no context leaves the hour as
written. -/
def to_24h_hour (h : Nat) (ampm : Option Meridiem) : Nat :=
  let h := min 12 h
  match ampm with
  | some .AM => if h = 12 then 0 else h
  | some .PM => if h = 12 then 12 else h + 12
  | none => h

/-- The context-inheritance step shared by branches 0 and 2 of
`extract_time_range`:
`ctx_left = detect_ampm(am1); ctx_right = detect_ampm(am2) or ctx_left;`
`if ctx_left is None and ctx_right is not None: ctx_left = ctx_right`. -/
def inheritCtx (am1 am2 : Option String) : Option Meridiem × Option Meridiem :=
  let ctxL := detect_ampm am1
  let ctxR := match detect_ampm am2 with
    | some c => some c
    | none => ctxL
  let ctxL := match ctxL, ctxR with
    | none, some c => some c
    | l, _ => l
  (ctxL, ctxR)

/-- `f"{n:02d}"`. -/
def pad2 (n : Nat) : String :=
  if n < 10 then "0" ++ toString n else toString n

/-- `f"{H1:02d}:{M1:02d}~{H2:02d}:{M2:02d}"`. -/
def fmtRange (h1 m1 h2 m2 : Nat) : String :=
  pad2 h1 ++ ":" ++ pad2 m1 ++ "~" ++ pad2 h2 ++ ":" ++ pad2 m2

/-- Fuel-driven global substitution (`re.sub` with a matcher that always
consumes at least one character); `fuel` is instantiated with the input
length, which bounds the number of scanning steps. -/
def subAllF (matchAt : List Char → Option (List Char)) (repl : List Char) :
    Nat → List Char → List Char
  | 0, l => l
  | _ + 1, [] => []
  | fuel + 1, c :: r =>
    match matchAt (c :: r) with
    | some rest => repl ++ subAllF matchAt repl fuel rest
    | none => c :: subAllF matchAt repl fuel r

/-- `re.sub(pattern, repl, l)` for a matcher consuming at least one char. -/
def subAll (matchAt : List Char → Option (List Char)) (repl : List Char)
    (l : List Char) : List Char :=
  subAllF matchAt repl l.length l

/-- Global substitution for a pattern wrapped in word boundaries `\b...\b`:
the matcher sees the previous original character (for the left boundary);
`matchedLast` is the last character of the fixed matched word (the previous
character for positions right after a replacement). -/
def subAllBF (matchAt : Option Char → List Char → Option (List Char))
    (repl : List Char) (matchedLast : Char) :
    Nat → Option Char → List Char → List Char
  | 0, _, l => l
  | _ + 1, _, [] => []
  | fuel + 1, prev, c :: r =>
    match matchAt prev (c :: r) with
    | some rest => repl ++ subAllBF matchAt repl matchedLast fuel (some matchedLast) rest
    | none => c :: subAllBF matchAt repl matchedLast fuel (some c) r

def subAllB (matchAt : Option Char → List Char → Option (List Char))
    (repl : List Char) (matchedLast : Char) (l : List Char) : List Char :=
  subAllBF matchAt repl matchedLast l.length none l

/-- `밤\s*12\s*시` anchored at the current position. -/
def matchBam12 (l : List Char) : Option (List Char) := do
  let l ← eatLit ['밤'] l
  let l ← eatLit ['1', '2'] (skipWS l)
  eatLit ['시'] (skipWS l)

/-- `자정\s*12\s*시` anchored at the current position. -/
def matchJajeong12 (l : List Char) : Option (List Char) := do
  let l ← eatLit ['자', '정'] l
  let l ← eatLit ['1', '2'] (skipWS l)
  eatLit ['시'] (skipWS l)

/-- `정오\s*12\s*시` anchored at the current position. -/
def matchJeongo12 (l : List Char) : Option (List Char) := do
  let l ← eatLit ['정', '오'] l
  let l ← eatLit ['1', '2'] (skipWS l)
  eatLit ['시'] (skipWS l)

/-- Right word boundary: end of input or a non-word character next. -/
def wordBoundaryAfter : List Char → Bool
  | [] => true
  | c :: _ => !isPyWord c

/-- `\b자정\b` anchored at the current position, given the previous
character. -/
def matchJajeongWord (prev : Option Char) (l : List Char) : Option (List Char) :=
  if (match prev with | none => true | some p => !isPyWord p) then
    match eatLit ['자', '정'] l with
    | some rest => if wordBoundaryAfter rest then some rest else none
    | none => none
  else none

/-- `\b정오\b` anchored at the current position, given the previous
character. -/
def matchJeongoWord (prev : Option Char) (l : List Char) : Option (List Char) :=
  if (match prev with | none => true | some p => !isPyWord p) then
    match eatLit ['정', '오'] l with
    | some rest => if wordBoundaryAfter rest then some rest else none
    | none => none
  else none

/-- `drama_weekly.normalize_special_words`: the five substitutions in source
order, rewriting midnight/noon idioms into explicit `오전/오후 12시`. -/
def normalize_special_words (s : String) : String :=
  let t := s.toList
  let t := subAll matchBam12 "오전 12시".toList t
  let t := subAll matchJajeong12 "오전 12시".toList t
  let t := subAllB matchJajeongWord "오전 12시".toList '정' t
  let t := subAll matchJeongo12 "오후 12시".toList t
  let t := subAllB matchJeongoWord "오후 12시".toList '오' t
  ⟨t⟩

/-- The ordered alternation `(오전|오후|밤|새벽|저녁|낮)` anchored at the
current position. -/
def parseAPMWord (l : List Char) : Option (String × List Char) :=
  match eatLit ['오', '전'] l with
  | some r => some ("오전", r)
  | none =>
  match eatLit ['오', '후'] l with
  | some r => some ("오후", r)
  | none =>
  match eatLit ['밤'] l with
  | some r => some ("밤", r)
  | none =>
  match eatLit ['새', '벽'] l with
  | some r => some ("새벽", r)
  | none =>
  match eatLit ['저', '녁'] l with
  | some r => some ("저녁", r)
  | none =>
  match eatLit ['낮'] l with
  | some r => some ("낮", r)
  | none => none

/-- The optional group `(오전|오후|밤|새벽|저녁|낮)?`: backtracking
candidates in greedy order (with the word first, then without). -/
def optAPM (l : List Char) : List (Option String × List Char) :=
  match parseAPMWord l with
  | some (w, r) => [(some w, r), (none, l)]
  | none => [(none, l)]

/-- Greedy `\d{1,2}`: candidates in order (two digits first). -/
def digits12 (l : List Char) : List (Nat × List Char) :=
  match l with
  | a :: b :: r =>
    if isPyDigit a && isPyDigit b then
      [(digitsVal [a, b], r), (digitsVal [a], b :: r)]
    else if isPyDigit a then [(digitsVal [a], b :: r)]
    else []
  | [a] => if isPyDigit a then [(digitsVal [a], [])] else []
  | [] => []

/-- Exactly `\d{2}`. -/
def digits2 (l : List Char) : Option (Nat × List Char) :=
  match l with
  | a :: b :: r => if isPyDigit a && isPyDigit b then some (digitsVal [a, b], r) else none
  | _ => none

/-- The range separator class `[~\-–—]`. -/
def isSepChar (c : Char) : Bool :=
  c = '~' || c = '-' || c = '–' || c = '—'

/-- Tail of branch 0 after the separator:
`\s*(오전|오후|밤|새벽|저녁|낮)?\s*(\d{1,2}):(\d{2})`, all backtracking
candidates in order. -/
def sepTailColon (l : List Char) : List (Option String × Nat × Nat) := do
  let (am2, l) ← optAPM (skipWS l)
  let (h2, l) ← digits12 (skipWS l)
  let l ← (eatLit [':'] l).toList
  let (m2, _) ← (digits2 l).toList
  pure (am2, h2, m2)

/-- The lazy `.*?[~\-–—]` of branch 0: try the separator at the current
position first, then consume one (non-newline) character and retry;
candidates in lazy order. -/
def lazySepScan : List Char → List (Option String × Nat × Nat)
  | [] => []
  | c :: r =>
    (if isSepChar c then sepTailColon r else []) ++
    (if c = '\n' then [] else lazySepScan r)

/-- Branch 0 of `extract_time_range`
(`(오전|오후|밤|새벽|저녁|낮)?\s*(\d{1,2}):(\d{2}).*?[~\-–—]\s*(오전|오후|밤|새벽|저녁|낮)?\s*(\d{1,2}):(\d{2})`)
anchored at the current position: the first backtracking candidate. -/
def matchColonRangeAt (l : List Char) :
    Option (Option String × Nat × Nat × Option String × Nat × Nat) :=
  (do
    let (am1, l) ← optAPM l
    let (h1, l) ← digits12 (skipWS l)
    let l ← (eatLit [':'] l).toList
    let (m1, l) ← (digits2 l).toList
    let (am2, h2, m2) ← lazySepScan l
    pure (am1, h1, m1, am2, h2, m2) : List _).head?

/-- The optional minute group `(?:\s*(\d{1,2})\s*분)?` of branches 2 and 3:
greedy candidates in order. -/
def optMinGroup (l : List Char) : List (Option Nat × List Char) :=
  ((do
    let (d, l1) ← digits12 (skipWS l)
    let l2 ← (eatLit ['분'] (skipWS l1)).toList
    pure (some d, l2) : List _)) ++ [(none, l)]

/-- Branch 2 of `extract_time_range` (the Korean hour range
`(오전|...)?\s*(\d{1,2})\s*시(?:\s*(\d{1,2})\s*분)?\s*[~\-–—]\s*(오전|...)?\s*(\d{1,2})\s*시(?:\s*(\d{1,2})\s*분)?`)
anchored at the current position. -/
def matchKRangeAt (l : List Char) :
    Option (Option String × Nat × Option Nat × Option String × Nat × Option Nat) :=
  (do
    let (am1, l) ← optAPM l
    let (h1, l) ← digits12 (skipWS l)
    let l ← (eatLit ['시'] (skipWS l)).toList
    let (mm1, l) ← optMinGroup l
    let l := skipWS l
    let l ← (match l with
      | c :: r => if isSepChar c then [r] else []
      | [] => ([] : List (List Char)))
    let (am2, l) ← optAPM (skipWS l)
    let (h2, l) ← digits12 (skipWS l)
    let l ← (eatLit ['시'] (skipWS l)).toList
    let (mm2, _) ← optMinGroup l
    pure (am1, h1, mm1, am2, h2, mm2) : List _).head?

/-- Branch 3 of `extract_time_range` (a single Korean time
`(오전|...)?\s*(\d{1,2})\s*시(?:\s*(\d{1,2})\s*분)?`) anchored at the
current position. -/
def matchKSingleAt (l : List Char) : Option (Option String × Nat × Option Nat) :=
  (do
    let (am, l) ← optAPM l
    let (h, l) ← digits12 (skipWS l)
    let l ← (eatLit ['시'] (skipWS l)).toList
    let (mm, _) ← optMinGroup l
    pure (am, h, mm) : List _).head?

/-- Boolean `re.search` for an ordered word alternation followed by `\b`. -/
def hasAltWordB (alts : List (List Char)) (l : List Char) : Bool :=
  l.tails.any fun suf =>
    alts.any fun w =>
      match eatLit w suf with
      | some rest => wordBoundaryAfter rest
      | none => false

/-- One match of `(\d{1,2}):(\d{2})` anchored at the current position,
returning the rest for `findall`-style continuation. -/
def matchCTAt (l : List Char) : Option (Nat × Nat × List Char) :=
  (do
    let (h, l1) ← digits12 l
    let l2 ← (eatLit [':'] l1).toList
    let (m, l3) ← (digits2 l2).toList
    pure (h, m, l3) : List _).head?

/-- `re.findall(r"(\d{1,2}):(\d{2})", t)`: non-overlapping matches left to
right. -/
def findallCT : Nat → List Char → List (Nat × Nat)
  | 0, _ => []
  | _ + 1, [] => []
  | fuel + 1, c :: r =>
    match matchCTAt (c :: r) with
    | some (h, m, rest) => (h, m) :: findallCT fuel rest
    | none => findallCT fuel r

/-- `f"{H:02d}:{M:02d}"` for one `HH:MM` pair under a context (the `conv`
closure of branch 1). -/
def convCT (hm : Nat × Nat) (ampm : Option Meridiem) : String :=
  pad2 (to_24h_hour hm.1 ampm) ++ ":" ++ pad2 hm.2

/-- `drama_weekly.extract_time_range`: clean, normalize special words, then
try branch 0 (colon range with per-side meridiem and inheritance), branch 1
(bare colon times under a sentence-wide context), branch 2 (Korean hour
range with per-side meridiem and inheritance), branch 3 (single Korean
time); no match yields `""`. -/
def extract_time_range (text : String) : String :=
  let raw := cleanTextDW text
  let t := (normalize_special_words raw).toList
  match searchAt matchColonRangeAt t with
  | some (am1, h1, m1, am2, h2, m2) =>
    let ctx := inheritCtx am1 am2
    fmtRange (to_24h_hour h1 ctx.1) m1 (to_24h_hour h2 ctx.2) m2
  | none =>
  let context : Option Meridiem :=
    if hasAltWordB ["오전".toList, "AM".toList, "am".toList, "새벽".toList] t then some .AM
    else if hasAltWordB ["오후".toList, "PM".toList, "pm".toList, "저녁".toList, "밤".toList,
        "늦은밤".toList] t then some .PM
    else none
  match findallCT t.length t with
  | ct1 :: ct2 :: _ => convCT ct1 context ++ "~" ++ convCT ct2 context
  | [ct1] => convCT ct1 context
  | [] =>
  match searchAt matchKRangeAt t with
  | some (am1, h1, mm1, am2, h2, mm2) =>
    let ctx := inheritCtx am1 am2
    fmtRange (to_24h_hour h1 ctx.1) (mm1.getD 0) (to_24h_hour h2 ctx.2) (mm2.getD 0)
  | none =>
  match searchAt matchKSingleAt t with
  | some (am, h, mm) =>
    pad2 (to_24h_hour h (detect_ampm am)) ++ ":" ++ pad2 (mm.getD 0)
  | none => ""

/-- The three sequential single-character replacements
`t.replace("년", "-").replace("월", "-").replace("일", "")` of
`normalize_kr_date`. -/
def krRep (c : Char) : List Char :=
  if c = '년' then ['-'] else if c = '월' then ['-'] else if c = '일' then [] else [c]

def krReplace (l : List Char) : List Char :=
  l.flatMap krRep

/-- The character class `[.\u00A0\s]` of `normalize_kr_date`. -/
def isDotSpace (c : Char) : Bool :=
  c.toNat = 46 || isPySpace c

/-- `re.sub(r"[.\u00A0\s]+", "-", t)`: dot/space runs become one dash. -/
def dotDashAux (inRun : Bool) : List Char → List Char
  | [] => []
  | c :: r =>
    if isDotSpace c then
      if inRun then dotDashAux true r else '-' :: dotDashAux true r
    else c :: dotDashAux false r

/-- `re.sub(r"-+", "-", t)`: dash runs become one dash. -/
def dashCollapseAux (inRun : Bool) : List Char → List Char
  | [] => []
  | c :: r =>
    if c = '-' then
      if inRun then dashCollapseAux true r else '-' :: dashCollapseAux true r
    else c :: dashCollapseAux false r

/-- `t.strip("-")`. -/
def stripDashes (l : List Char) : List Char :=
  dropEndWhile (fun c => c = '-') (l.dropWhile (fun c => c = '-'))

/-- Python `str.isdigit` (ASCII model): non-empty and all digits. -/
def isdigitStr (l : List Char) : Bool :=
  !l.isEmpty && l.all isPyDigit

/-- Gregorian leap year, as in Python's `datetime.date`. -/
def isLeap (y : Nat) : Bool :=
  y % 4 = 0 && (y % 100 ≠ 0 || y % 400 = 0)

/-- Days in a month, as validated by `datetime.date`. -/
def daysInMonth (y m : Nat) : Nat :=
  if m = 1 ∨ m = 3 ∨ m = 5 ∨ m = 7 ∨ m = 8 ∨ m = 10 ∨ m = 12 then 31
  else if m = 4 ∨ m = 6 ∨ m = 9 ∨ m = 11 then 30
  else if isLeap y then 29
  else 28

/-- The constructor check of `datetime.date(y, m, d)` (`MINYEAR = 1`,
`MAXYEAR = 9999`); out-of-range raises, which `normalize_kr_date` catches. -/
def dateValid (y m d : Nat) : Prop :=
  1 ≤ y ∧ y ≤ 9999 ∧ 1 ≤ m ∧ m ≤ 12 ∧ 1 ≤ d ∧ d ≤ daysInMonth y m

instance (y m d : Nat) : Decidable (dateValid y m d) := by
  unfold dateValid
  infer_instance

/-- `normalize_kr_date` of `drama_calendar_2025.py` / `drama_2025_fin.py`:
`None`/empty input gives `none`; otherwise Korean date markers become
dashes, dot/space runs become dashes, everything but digits and dashes is
dropped, dashes are collapsed and stripped, the dash-separated fields are
read as year (required), month and day (defaulting to 1), and the result is
`none` unless `datetime.date` accepts it (the source catches the
`ValueError`); the function never raises. -/
def normalize_kr_date (s : Option String) : Option (Nat × Nat × Nat) :=
  match s with
  | none => none
  | some s0 =>
    if pyStrip s0.toList = [] then none
    else
      match splitOnChar '-' (stripDashes (dashCollapseAux false
          ((dotDashAux false (krReplace (pyStrip s0.toList))).filter
            (fun c => isPyDigit c || c = '-')))) with
      | [] => none
      | p0 :: rest =>
        if ¬ isdigitStr p0 then none
        else
          if dateValid (digitsVal p0)
              (match rest.head? with
               | some p1 => if isdigitStr p1 then digitsVal p1 else 1
               | none => 1)
              (match rest[1]? with
               | some p2 => if isdigitStr p2 then digitsVal p2 else 1
               | none => 1) then
            some (digitsVal p0,
              (match rest.head? with
               | some p1 => if isdigitStr p1 then digitsVal p1 else 1
               | none => 1),
              (match rest[1]? with
               | some p2 => if isdigitStr p2 then digitsVal p2 else 1
               | none => 1))
          else none

/-! ## Claim C1: time-range normalization with meridiem context propagation -/

/-- C1 counterexample: on the spec\x27s own example `"오후 10시30분 ~ 12시"`,
`extract_time_range` yields `"22:30~12:00"`, not the claimed `"22:30~00:00"`:
the right-hand bare `12` inherits the `오후` (PM) context, and
`to_24h_hour 12 PM = 12`. -/
theorem C1_counterexample :
    extract_time_range "오후 10시30분 ~ 12시" = "22:30~12:00" ∧
    ("22:30~12:00" : String) ≠ "22:30~00:00" := by
  constructor
  · decide
  · decide

/-- C1 (amended): `extract_time_range "오후 10시30분 ~ 12시" = "22:30~12:00"`
(the bare right side inherits the PM context, and hour 12 under PM renders
as `12:00`, not `00:00`); in general, inside `extract_time_range`, whenever
exactly one side of a range carries a word that `detect_ampm` recognizes,
`inheritCtx` gives both sides that meridiem before `to_24h_hour` conversion. -/
theorem C1_time_range_context_propagation :
    extract_time_range "오후 10시30분 ~ 12시" = "22:30~12:00" ∧
    (∀ (a b : Option String) (c : Meridiem), detect_ampm a = none →
      detect_ampm b = some c → inheritCtx a b = (some c, some c)) ∧
    (∀ (a b : Option String) (c : Meridiem), detect_ampm a = some c →
      detect_ampm b = none → inheritCtx a b = (some c, some c)) := by
  refine ⟨by decide, ?_, ?_⟩
  · intro a b c h1 h2
    simp [inheritCtx, h1, h2]
  · intro a b c h1 h2
    simp [inheritCtx, h1, h2]

/-- C1 witness: the context-propagation law evaluated at the concrete
captures of the example (`오후` on the left, nothing on the right). -/
theorem C1_witness :
    inheritCtx (some "오후") none = (some Meridiem.PM, some Meridiem.PM) ∧
    inheritCtx none (some "오전") = (some Meridiem.AM, some Meridiem.AM) := by
  constructor
  · exact C1_time_range_context_propagation.2.2 (some "오후") none Meridiem.PM
      (by decide) (by decide)
  · exact C1_time_range_context_propagation.2.1 none (some "오전") Meridiem.AM
      (by decide) (by decide)

/-! ## Claim C3: fatal-exit behavior on missing column / missing API key -/

/-- C3 counterexample: `episode_bild.main` with a CSV lacking every accepted
title column prints its fatal message but returns normally, so the process
exits with status 0, not a non-zero status. -/
theorem C3_counterexample :
    episodeBildStartup ["foo"] =
      StartupResult.exit 0
        "CSV에 \x27title\x27 또는 \x27제목\x27 또는 \x27drama_title\x27 컬럼이 없습니다." := by
  decide

/-- C3 (amended): `episode.py` and `tmdb_image_batch.py` terminate with a
fatal message and exit status 1 when a required CSV column or the API key is
missing, but `episode_bild.py` only prints its fatal message and exits
normally with status 0. -/
theorem C3_fatal_exit_behavior :
    (∀ cols1 cols2 : List String, ¬ ("title" ∈ cols1 ∧ "runtime" ∈ cols1) →
      episodeMainStartup cols1 cols2 =
        StartupResult.exit 1 "drama_weekly.csv에 필요한 컬럼이 없습니다") ∧
    (∀ cols1 cols2 : List String, ("title" ∈ cols1 ∧ "runtime" ∈ cols1) →
      ¬ ("drama_title" ∈ cols2 ∧ "runtime_min" ∈ cols2) →
      episodeMainStartup cols1 cols2 =
        StartupResult.exit 1 "episode_bild.csv에 필요한 컬럼이 없습니다") ∧
    (∀ (flagKey envKey : Option String) (ex : Bool) (cols : List String),
      (pyOrStr flagKey envKey).getD "" = "" →
      tmdbImageBatchStartup flagKey envKey ex cols =
        StartupResult.exit 1
          "TMDB API 키가 없습니다. --api-key 또는 TMDB_API_KEY 환경변수로 설정해 주세요.") ∧
    (∀ (flagKey envKey : Option String) (cols : List String),
      (pyOrStr flagKey envKey).getD "" ≠ "" →
      "title" ∉ cols → "drama_title" ∉ cols → "제목" ∉ cols → "name" ∉ cols →
      tmdbImageBatchStartup flagKey envKey true cols =
        StartupResult.exit 1
          "제목 컬럼을 찾을 수 없습니다. (지원: [title, drama_title, 제목, name])") ∧
    (∀ cols : List String, "title" ∉ cols → "제목" ∉ cols → "drama_title" ∉ cols →
      episodeBildStartup cols =
        StartupResult.exit 0
          "CSV에 \x27title\x27 또는 \x27제목\x27 또는 \x27drama_title\x27 컬럼이 없습니다.") := by
  refine ⟨?_, ?_, ?_, ?_, ?_⟩
  · intro cols1 cols2 h
    simp [episodeMainStartup, h]
  · intro cols1 cols2 h1 h2
    simp [episodeMainStartup, h1, h2]
  · intro flagKey envKey ex cols h
    simp [tmdbImageBatchStartup, h]
  · intro flagKey envKey cols h h1 h2 h3 h4
    simp [tmdbImageBatchStartup, h, h1, h2, h3, h4]
  · intro cols h1 h2 h3
    simp [episodeBildStartup, h1, h2, h3]

/-- C3 witness: the three scripts evaluated on an input CSV that has only a
`foo` column (and, for the TMDB script, no API key anywhere). -/
theorem C3_witness :
    episodeMainStartup ["foo"] ["foo"] =
      StartupResult.exit 1 "drama_weekly.csv에 필요한 컬럼이 없습니다" ∧
    tmdbImageBatchStartup none none true ["foo"] =
      StartupResult.exit 1
        "TMDB API 키가 없습니다. --api-key 또는 TMDB_API_KEY 환경변수로 설정해 주세요." ∧
    episodeBildStartup ["foo"] =
      StartupResult.exit 0
        "CSV에 \x27title\x27 또는 \x27제목\x27 또는 \x27drama_title\x27 컬럼이 없습니다." := by
  refine ⟨?_, ?_, ?_⟩
  · exact C3_fatal_exit_behavior.1 ["foo"] ["foo"] (by decide)
  · exact C3_fatal_exit_behavior.2.2.1 none none true ["foo"] (by decide)
  · exact C3_fatal_exit_behavior.2.2.2.2 ["foo"] (by decide) (by decide) (by decide)

/-! ## Claim C10: the runtime-inference guard of maybe_infer_runtime -/

theorem isPyDigit_ne {c d : Char} (h : isPyDigit c = true)
    (hd : isPyDigit d = false) : c ≠ d := by
  intro he
  subst he
  rw [h] at hd
  cases hd

theorem not_space_of_digit {c : Char} (h : isPyDigit c = true) :
    isPySpace c = false := by
  simp only [isPyDigit, Bool.and_eq_true, decide_eq_true_eq] at h
  rw [Bool.eq_false_iff]
  intro hcon
  simp only [isPySpace, Bool.or_eq_true, Bool.and_eq_true, decide_eq_true_eq] at hcon
  omega

theorem dropWhile_eq_self_of {p : Char → Bool} {l : List Char}
    (h : ∀ c ∈ l, p c = false) : l.dropWhile p = l := by
  cases l with
  | nil => rfl
  | cons c r => simp [List.dropWhile, h c (by simp)]

theorem pyStrip_of_no_space {l : List Char} (h : ∀ c ∈ l, isPySpace c = false) :
    pyStrip l = l := by
  unfold pyStrip dropEndWhile
  rw [dropWhile_eq_self_of h, dropWhile_eq_self_of, List.reverse_reverse]
  intro c hc
  exact h c (by simpa using hc)

theorem pyStrip_digits {l : List Char} (h : ∀ c ∈ l, isPyDigit c = true) :
    pyStrip l = l :=
  pyStrip_of_no_space (fun c hc => not_space_of_digit (h c hc))

theorem splitOnceTilde_none {l : List Char} (h : ∀ c ∈ l, c ≠ '~') :
    splitOnceTilde l = none := by
  induction l with
  | nil => rfl
  | cons c r ih =>
    show (if c = '~' then some ([], r) else (splitOnceTilde r).map _) = none
    rw [if_neg (h c (by simp)), ih (fun c hc => h c (by simp [hc]))]
    rfl

theorem splitOnceTilde_append {x y : List Char} (h : ∀ c ∈ x, c ≠ '~') :
    splitOnceTilde (x ++ '~' :: y) = some (x, y) := by
  induction x with
  | nil => simp [splitOnceTilde]
  | cons c r ih =>
    show (if c = '~' then some ([], r ++ '~' :: y) else (splitOnceTilde (r ++ '~' :: y)).map _) =
      some (c :: r, y)
    rw [if_neg (h c (by simp)), ih (fun c hc => h c (by simp [hc]))]
    rfl

theorem splitOnChar_no_sep {sep : Char} {l : List Char} (h : ∀ c ∈ l, c ≠ sep) :
    splitOnChar sep l = [l] := by
  induction l with
  | nil => rfl
  | cons c r ih =>
    show (if c = sep then [] :: splitOnChar sep r else _) = [c :: r]
    rw [if_neg (h c (by simp)), ih (fun c hc => h c (by simp [hc]))]

theorem splitOnChar_append {sep : Char} {x y : List Char} (h : ∀ c ∈ x, c ≠ sep) :
    splitOnChar sep (x ++ sep :: y) = x :: splitOnChar sep y := by
  induction x with
  | nil => simp [splitOnChar]
  | cons c r ih =>
    show (if c = sep then [] :: splitOnChar sep (r ++ sep :: y) else _) =
      (c :: r) :: splitOnChar sep y
    rw [if_neg (h c (by simp)), show List.append r (sep :: y) = r ++ sep :: y from rfl,
      ih (fun c hc => h c (by simp [hc]))]

theorem pyIntDigits_go {l : List Char} (h : ∀ c ∈ l, isPyDigit c = true) :
    ∀ a, pyIntDigits.go a l =
      some (l.foldl (fun a c => 10 * a + (c.toNat - 48)) a) := by
  induction l with
  | nil => intro a; rfl
  | cons c r ih =>
    intro a
    have hc : isPyDigit c = true := h c (by simp)
    have hne : c ≠ '_' := isPyDigit_ne hc (by decide)
    rw [pyIntDigits.go.eq_def]
    simp only [hne, if_false, hc, if_true]
    rw [ih (fun c hc => h c (by simp [hc])), List.foldl_cons]

theorem pyIntDigits_digits {l : List Char} (hne : l ≠ [])
    (h : ∀ c ∈ l, isPyDigit c = true) :
    pyIntDigits l = some (digitsVal l) := by
  cases l with
  | nil => cases hne rfl
  | cons c r =>
    have hc : isPyDigit c = true := h c (by simp)
    show (if isPyDigit c then pyIntDigits.go (c.toNat - 48) r else none) =
      some (digitsVal (c :: r))
    rw [if_pos hc, pyIntDigits_go (fun c hc => h c (by simp [hc]))]
    unfold digitsVal
    rw [List.foldl_cons, show 10 * 0 + (c.toNat - 48) = c.toNat - 48 by omega]

theorem pyInt_digits {l : List Char} (hne : l ≠ [])
    (h : ∀ c ∈ l, isPyDigit c = true) :
    pyInt l = some ((digitsVal l : Nat) : Int) := by
  unfold pyInt
  rw [pyStrip_digits h]
  cases l with
  | nil => cases hne rfl
  | cons c r =>
    have hc : isPyDigit c = true := h c (by simp)
    have h1 : c ≠ '-' := isPyDigit_ne hc (by decide)
    have h2 : c ≠ '+' := isPyDigit_ne hc (by decide)
    show (if c = '-' then _ else if c = '+' then _ else
      (pyIntDigits (c :: r)).map (fun n => (n : Int))) = _
    rw [if_neg h1, if_neg h2, pyIntDigits_digits (by simp) h]
    rfl

theorem parseHM_digits {h1 m1 : List Char} (hne1 : h1 ≠ [])
    (hd1 : ∀ c ∈ h1, isPyDigit c = true) (hne2 : m1 ≠ [])
    (hd2 : ∀ c ∈ m1, isPyDigit c = true) :
    parseHM (h1 ++ ':' :: m1) = some ((digitsVal h1 : Int), (digitsVal m1 : Int)) := by
  unfold parseHM
  rw [splitOnChar_append (fun c hc => isPyDigit_ne (hd1 c hc) (by decide)),
    splitOnChar_no_sep (fun c hc => isPyDigit_ne (hd2 c hc) (by decide))]
  simp only
  rw [pyInt_digits hne1 hd1, pyInt_digits hne2 hd2]
  rfl

/-- C10 counterexample: `"0:-40~0:0"` is not of the form `H1:M1~H2:M2`
(its minute component is negative), yet with an empty runtime argument the
inference fires (Python `int` accepts the sign) and returns `"40분"` instead
of the original runtime `""`. -/
theorem C10_counterexample :
    maybe_infer_runtime "0:-40~0:0" "" 30 120 = "40분" := by
  decide

/-- C10 (amended): a non-empty labelled runtime is returned unchanged; a
`start_time` without `~` leaves the runtime unchanged; and when both sides
are colon-separated digit strings (`H1:M1~H2:M2`, components parsed by
Python `int`, which also accepts signed/whitespace-padded components as the
counterexample shows), the result is `"<d>분"` exactly when the
midnight-wrapped difference `d` lies in `[min_ok, max_ok]`, and the original
(empty) runtime otherwise. -/
theorem C10_runtime_inference_guard :
    (∀ (st rt : String) (a b : Int), rt ≠ "" → maybe_infer_runtime st rt a b = rt) ∧
    (∀ (st rt : String) (a b : Int), (∀ c ∈ st.toList, c ≠ '~') →
      maybe_infer_runtime st rt a b = rt) ∧
    (∀ (h1 m1 h2 m2 : List Char) (a b : Int),
      h1 ≠ [] → (∀ c ∈ h1, isPyDigit c = true) →
      m1 ≠ [] → (∀ c ∈ m1, isPyDigit c = true) →
      h2 ≠ [] → (∀ c ∈ h2, isPyDigit c = true) →
      m2 ≠ [] → (∀ c ∈ m2, isPyDigit c = true) →
      maybe_infer_runtime ⟨h1 ++ ':' :: m1 ++ '~' :: h2 ++ ':' :: m2⟩ "" a b =
        (let d0 : Int := ((digitsVal h2 : Int) * 60 + (digitsVal m2 : Int)) -
          ((digitsVal h1 : Int) * 60 + (digitsVal m1 : Int))
         let d := if d0 < 0 then d0 + 24 * 60 else d0
         if a ≤ d ∧ d ≤ b then toString d ++ "분" else "")) := by
  refine ⟨?_, ?_, ?_⟩
  · intro st rt a b h
    simp [maybe_infer_runtime, h]
  · intro st rt a b h
    by_cases hrt : rt = ""
    · subst hrt
      by_cases hst : st = ""
      · simp [maybe_infer_runtime, hst]
      · have hn : splitOnceTilde st.data = none := splitOnceTilde_none h
        simp [maybe_infer_runtime, hst, hn]
    · simp [maybe_infer_runtime, hrt]
  · intro h1 m1 h2 m2 a b hne1 hd1 hne2 hd2 hne3 hd3 hne4 hd4
    have hemp : (⟨h1 ++ ':' :: m1 ++ '~' :: h2 ++ ':' :: m2⟩ : String) ≠ "" := by
      intro hcon
      have h2 := congrArg String.data hcon
      cases h1 with
      | nil => exact hne1 rfl
      | cons x xs => simp at h2
    have hx : ∀ c ∈ h1 ++ ':' :: m1, c ≠ '~' := by
      intro c hc
      rcases List.mem_append.mp hc with hc | hc
      · exact isPyDigit_ne (hd1 c hc) (by decide)
      · rcases List.mem_cons.mp hc with hc | hc
        · subst hc; decide
        · exact isPyDigit_ne (hd2 c hc) (by decide)
    simp only [maybe_infer_runtime]
    rw [if_neg (by simp), if_neg hemp]
    have hlist : (⟨h1 ++ ':' :: m1 ++ '~' :: h2 ++ ':' :: m2⟩ : String).toList =
        (h1 ++ ':' :: m1) ++ '~' :: (h2 ++ ':' :: m2) := by
      simp [String.toList]
    rw [hlist, splitOnceTilde_append hx]
    simp only [parseHM_digits hne1 hd1 hne2 hd2, parseHM_digits hne3 hd3 hne4 hd4]

/-- C10 witness: the inference rules evaluated at `"22:30~00:00"` with an
empty runtime (midnight wrap gives 90 minutes, inside the guard) and at a
non-empty labelled runtime (returned untouched). -/
theorem C10_witness :
    maybe_infer_runtime "22:30~00:00" "" 30 120 = "90분" ∧
    maybe_infer_runtime "22:30~00:00" "70분" 30 120 = "70분" := by
  constructor
  · have h := C10_runtime_inference_guard.2.2 ['2', '2'] ['3', '0'] ['0', '0'] ['0', '0']
      30 120 (by decide) (by decide) (by decide) (by decide) (by decide) (by decide)
      (by decide) (by decide)
    exact h.trans (by decide)
  · exact C10_runtime_inference_guard.1 "22:30~00:00" "70분" 30 120 (by decide)

/-! ## Claim C7: strict runtime-string parsing -/

theorem hasDayTok_cons_of {r : List Char} (c : Char) (h : hasDayTok r = true) :
    hasDayTok (c :: r) = true := by
  match r with
  | [] => simp [hasDayTok] at h
  | [a] => simp [hasDayTok] at h
  | a :: b :: rest => simp [hasDayTok, h]

theorem hasDayTok_of_split :
    ∀ (pre : List Char) (d : Char) (post : List Char), isDayChar d = true →
      hasDayTok (pre ++ d :: '요' :: '일' :: post) = true := by
  intro pre
  induction pre with
  | nil => intro d post h; simp [hasDayTok, h]
  | cons c pre ih =>
    intro d post h
    exact hasDayTok_cons_of c (ih d post h)

/-- C7 counterexample: the input `"30분[~]"` contains a `~`, yet the parser
returns 30: `clean_text` strips the bracketed footnote `[~]` before the
schedule-feature check runs, so the raw input is not what is inspected. -/
theorem C7_counterexample :
    parse_runtime_minutes_strict "30분[~]" = some 30 ∧
    '~' ∈ ("30분[~]" : String).toList := by
  constructor
  · decide
  · decide

/-- C7: `"1시간 10분"` parses to 70 and `"75분"` to 75; and whenever the
cleaned text (footnotes removed, whitespace collapsed — the text the source
actually inspects) contains a day-of-week token `X요일`, a `~`, or a `:`,
the parser refuses it (`none`). -/
theorem C7_runtime_parsing :
    parse_runtime_minutes_strict "1시간 10분" = some 70 ∧
    parse_runtime_minutes_strict "75분" = some 75 ∧
    (∀ s : String,
      ((∃ pre d post, (cleanTextDW s).toList = pre ++ d :: '요' :: '일' :: post ∧
          isDayChar d = true) ∨
        '~' ∈ (cleanTextDW s).toList ∨ ':' ∈ (cleanTextDW s).toList) →
      parse_runtime_minutes_strict s = none) := by
  refine ⟨by decide, by decide, ?_⟩
  intro s h
  have hg : (hasDayTok (cleanTextDW s).toList ||
      (cleanTextDW s).toList.any (fun c => c = '~') ||
      (cleanTextDW s).toList.any (fun c => c = ':')) = true := by
    simp only [Bool.or_eq_true, List.any_eq_true, decide_eq_true_eq]
    rcases h with ⟨pre, d, post, heq, hd⟩ | h | h
    · exact Or.inl (Or.inl (by rw [heq]; exact hasDayTok_of_split pre d post hd))
    · exact Or.inl (Or.inr ⟨'~', h, rfl⟩)
    · exact Or.inr ⟨':', h, rfl⟩
  unfold parse_runtime_minutes_strict
  rw [if_pos hg]

/-- C7 witness: the refusal rule applied at a cleaned text containing a
colon, plus the two positive parses restated through the theorem. -/
theorem C7_witness :
    parse_runtime_minutes_strict "21:00 방송" = none ∧
    parse_runtime_minutes_strict "매주 월요일 70분" = none := by
  constructor
  · exact C7_runtime_parsing.2.2 "21:00 방송" (Or.inr (Or.inr (by decide)))
  · exact C7_runtime_parsing.2.2 "매주 월요일 70분"
      (Or.inl ⟨"매주 ".toList, '월', " 70분".toList, by decide, by decide⟩)

/-! ## Claim C2: (no) duplicate-episode merging in the episode pipeline -/

theorem filter_ne_nil_flatMap_id {α : Type} [DecidableEq α] (l : List (List α)) :
    ((l.filter (fun p => p ≠ [])).flatMap id) = l.flatMap id := by
  induction l with
  | nil => rfl
  | cons x xs ih =>
    have ih2 : (List.filter (fun p => !decide (p = [])) xs).flatten = xs.flatten := by
      simpa using ih
    simp only [List.filter_cons, List.flatMap_cons]
    by_cases hx : x = []
    · simp [hx, ih2]
    · simp [hx, ih2]

/-- C2 counterexample: two parsed tables each contributing a row numbered
`1화` produce two `1화` rows in the document output — no merged single row
(the pipeline only concatenates and sorts). -/
theorem C2_counterexample :
    (parse_document_rows
        [[{ episode_no := "1화", broadcast_at := "1월 1일", title := "가", description := "" }],
         [{ episode_no := "1화", broadcast_at := "", title := "가나다", description := "설명" }]]).countP
      (fun r => r.episode_no == "1화") = 2 := by
  unfold parse_document_rows
  rw [List.Perm.countP_eq _ (List.mergeSort_perm _ _)]
  decide

/-- C2 (amended): the Episode pipeline performs no duplicate merging at all:
the document rows are exactly the concatenation of the per-table parse
results (as a permutation — nothing is dropped, merged, or field-combined),
stably sorted by episode number, and `main` emits one output row per parsed
episode row. -/
theorem C2_no_episode_merging :
    (∀ tables : List (List EpRow),
      (parse_document_rows tables).Perm (tables.flatMap id) ∧
      List.Pairwise (fun a b => ep_key a ≤ ep_key b) (parse_document_rows tables)) ∧
    (∀ items : List (String × List EpRow),
      (episodeBildOutRows items).length = (items.map (fun it => it.2.length)).sum) := by
  constructor
  · intro tables
    constructor
    · unfold parse_document_rows
      rw [← filter_ne_nil_flatMap_id tables]
      exact List.mergeSort_perm _ _
    · unfold parse_document_rows
      refine List.Pairwise.imp ?_ (List.sorted_mergeSort ?_ ?_ _)
      · intro a b hab
        simpa using hab
      · intro a b c hab hbc
        simp only [decide_eq_true_eq] at *
        omega
      · intro a b
        simp only [Bool.or_eq_true, decide_eq_true_eq]
        omega
  · intro items
    unfold episodeBildOutRows
    rw [List.length_map, List.length_flatMap]
    refine congrArg List.sum (List.map_congr_left ?_)
    intro it _
    simp [Function.comp_apply]

/-! ## Claim C9: the selector cascade of descriptions.py -/

theorem pick_best_foldl (t : List String) (ts : List (List String)) :
    (ts.foldl (fun best x => if x.length > best.length then x else best) t) ∈ t :: ts ∧
    ∀ x ∈ t :: ts, x.length ≤
      (ts.foldl (fun best x => if x.length > best.length then x else best) t).length := by
  induction ts generalizing t with
  | nil => simp
  | cons y ys ih =>
    have step : (if y.length > t.length then y else t) ∈ [t, y] ∧
        t.length ≤ (if y.length > t.length then y else t).length ∧
        y.length ≤ (if y.length > t.length then y else t).length := by
      by_cases hy : y.length > t.length
      · refine ⟨by simp [hy], by simp [hy]; omega, by simp [hy]⟩
      · refine ⟨by simp [hy], by simp [hy], by simp [hy]; omega⟩
    obtain ⟨ih1, ih2⟩ := ih (if y.length > t.length then y else t)
    constructor
    · rw [List.foldl_cons]
      rcases List.mem_cons.mp ih1 with h | h
      · rw [h]
        rcases (by simpa using step.1 :
            (if y.length > t.length then y else t) = t ∨
            (if y.length > t.length then y else t) = y) with h2 | h2
        · rw [h2]; simp
        · rw [h2]; simp
      · simp [h]
    · intro x hx
      rw [List.foldl_cons]
      rcases List.mem_cons.mp hx with h | h
      · subst h
        exact le_trans step.2.1 (ih2 _ (by simp))
      · rcases List.mem_cons.mp h with h | h
        · subst h
          exact le_trans step.2.2 (ih2 _ (by simp))
        · exact ih2 _ (by simp [h])

/-- C9: (1) when the primary selector yields at least one table with a cell,
the fallback (`article`) tables play no role in the result; (2) when neither
selector yields a qualifying table the extractor returns `""`; (3) whichever
candidate set won, the serialized table is one with the greatest number of
`th`/`td` cells among the candidates. -/
theorem C9_selector_cascade :
    (∀ (p art art' : List (List String)),
      p.filter (fun t => t.length > 0) ≠ [] →
      extract_by_common_selector ⟨p, art⟩ = extract_by_common_selector ⟨p, art'⟩) ∧
    (∀ doc : DocTables,
      doc.primary.filter (fun t => t.length > 0) = [] →
      doc.article.filter (fun t => t.length > 0) = [] →
      extract_by_common_selector doc = "") ∧
    (∀ (doc : DocTables) (cands : List (List String)),
      cands = (if (doc.primary.filter (fun t => t.length > 0)).isEmpty
        then doc.article.filter (fun t => t.length > 0)
        else doc.primary.filter (fun t => t.length > 0)) →
      cands ≠ [] →
      ∃ best, pick_best_table cands = some best ∧ best ∈ cands ∧
        (∀ t ∈ cands, t.length ≤ best.length) ∧
        extract_by_common_selector doc = table_to_text_one_line best) := by
  refine ⟨?_, ?_, ?_⟩
  · intro p art art' h
    unfold extract_by_common_selector
    rw [if_neg (by simp [List.isEmpty_iff, h]), if_neg (by simp [List.isEmpty_iff, h])]
  · intro doc h1 h2
    unfold extract_by_common_selector
    rw [h1, h2]
    rfl
  · intro doc cands hc hne
    have hext : extract_by_common_selector doc = extractFromCandidates cands := by
      unfold extract_by_common_selector
      rw [← hc]
    cases cands with
    | nil => exact absurd rfl hne
    | cons c cs =>
      refine ⟨_, rfl, (pick_best_foldl c cs).1, (pick_best_foldl c cs).2, ?_⟩
      rw [hext]
      rfl

/-- C9 witness: changing the fallback tables does not change the result when
the primary selector already yielded a table with cells; a no-candidate
document maps to `""`; and the bigger of two primary tables is serialized. -/
theorem C9_witness :
    extract_by_common_selector ⟨[["a", "b"]], [["z", "w", "q"]]⟩ =
      extract_by_common_selector ⟨[["a", "b"]], []⟩ ∧
    extract_by_common_selector ⟨[[], []], [[]]⟩ = "" ∧
    extract_by_common_selector ⟨[["a", "b"], ["x", "y", "z"]], []⟩ =
      table_to_text_one_line ["x", "y", "z"] := by
  refine ⟨?_, ?_, ?_⟩
  · exact C9_selector_cascade.1 [["a", "b"]] [["z", "w", "q"]] [] (by decide)
  · exact C9_selector_cascade.2.1 ⟨[[], []], [[]]⟩ (by decide) (by decide)
  · obtain ⟨best, h1, h2, h3, h4⟩ := C9_selector_cascade.2.2
      ⟨[["a", "b"], ["x", "y", "z"]], []⟩ [["a", "b"], ["x", "y", "z"]] (by decide) (by decide)
    have hb : best = ["x", "y", "z"] := by
      have h5 : some best = some ["x", "y", "z"] := by
        rw [← h1]
        decide
      exact Option.some.inj h5
    rw [h4, hb]

/-! ## Claim C8: idempotence and determinism of the runtime-merge job -/

/-- C8: when the normalized title keys of `drama_weekly.csv` are unique,
running the merge again on its own output changes nothing (identical cell
values, hence no new or duplicated rows), and the job preserves the row
count of `episode_bild.csv`. -/
theorem C8_merge_idempotent :
    ∀ (t1 : List WRow) (t2 : List ERow), keysUnique t1 →
      mergeJob t1 (mergeJob t1 t2) = mergeJob t1 t2 ∧
      (mergeJob t1 t2).length = t2.length := by
  intro t1 t2 hu
  constructor
  · unfold mergeJob
    rw [List.map_map]
    apply List.map_congr_left
    intro r _
    show (fun r : ERow =>
      match runtimeMapLookup t1 (normalize_title r.drama_title) with
      | some v => { r with runtime_min := some (normalize_runtime_to_minutes_label v) }
      | none => r)
      ((fun r : ERow =>
        match runtimeMapLookup t1 (normalize_title r.drama_title) with
        | some v => { r with runtime_min := some (normalize_runtime_to_minutes_label v) }
        | none => r) r) = _
    cases hl : runtimeMapLookup t1 (normalize_title r.drama_title) with
    | none => simp [hl]
    | some v => simp [hl]
  · unfold mergeJob
    rw [List.length_map]

/-- C8 witness: the idempotence law at a concrete one-row pair of tables. -/
theorem C8_witness :
    mergeJob [{ title := "가족", runtime := some "70분" }]
        (mergeJob [{ title := "가족", runtime := some "70분" }]
          [{ drama_title := "가족", episode_no := "1화", title := "시작",
             broadcast_at := "2025-01-03", runtime_min := none, description := "" }]) =
      mergeJob [{ title := "가족", runtime := some "70분" }]
        [{ drama_title := "가족", episode_no := "1화", title := "시작",
           broadcast_at := "2025-01-03", runtime_min := none, description := "" }] :=
  (C8_merge_idempotent [{ title := "가족", runtime := some "70분" }]
    [{ drama_title := "가족", episode_no := "1화", title := "시작",
       broadcast_at := "2025-01-03", runtime_min := none, description := "" }]
    (by simp [keysUnique])).1


/-! ## Claim C5: title-bracket stripping -/

theorem not_hangul_of_space {c : Char} (h : isPySpace c = true) : isHangul c = false := by
  simp only [isPySpace, Bool.or_eq_true, Bool.and_eq_true, decide_eq_true_eq] at h
  rw [Bool.eq_false_iff]
  intro hcon
  simp only [isHangul, Bool.or_eq_true, Bool.and_eq_true, decide_eq_true_eq] at hcon
  omega

theorem dwGlyph_not_hangul {c : Char} (h : dwGlyph c = true) : isHangul c = false := by
  simp only [dwGlyph, Bool.or_eq_true, decide_eq_true_eq] at h
  rw [Bool.eq_false_iff]
  intro hcon
  simp only [isHangul, Bool.or_eq_true, Bool.and_eq_true, decide_eq_true_eq] at hcon
  omega

theorem finGlyph_not_hangul {c : Char} (h : finGlyph c = true) : isHangul c = false := by
  simp only [finGlyph, Bool.or_eq_true, decide_eq_true_eq] at h
  rw [Bool.eq_false_iff]
  intro hcon
  simp only [isHangul, Bool.or_eq_true, Bool.and_eq_true, decide_eq_true_eq] at hcon
  omega

theorem removeLtLt_eq_self : ∀ {l : List Char},
    (∀ c ∈ l, c ≠ '<' ∧ c ≠ '>') → removeLtLt l = l := by
  intro l
  induction l with
  | nil => intro _; rfl
  | cons c r ih =>
    intro h
    rw [removeLtLt.eq_def]
    simp only [if_neg (h c (by simp)).1, if_neg (h c (by simp)).2]
    rw [ih (fun c hc => h c (by simp [hc]))]

theorem mem_collWSAux {c : Char} : ∀ {l : List Char} {b : Bool},
    c ∈ collWSAux b l → c = ' ' ∨ c ∈ l := by
  intro l
  induction l with
  | nil => intro b h; simp [collWSAux] at h
  | cons d r ih =>
    intro b h
    by_cases hd : isPySpace d
    · cases b with
      | true =>
        rw [show collWSAux true (d :: r) = collWSAux true r by simp [collWSAux, hd]] at h
        rcases ih h with h | h
        · exact Or.inl h
        · exact Or.inr (by simp [h])
      | false =>
        rw [show collWSAux false (d :: r) = ' ' :: collWSAux true r by
          simp [collWSAux, hd]] at h
        rcases List.mem_cons.mp h with h | h
        · exact Or.inl h
        · rcases ih h with h | h
          · exact Or.inl h
          · exact Or.inr (by simp [h])
    · rw [show collWSAux b (d :: r) = d :: collWSAux false r by simp [collWSAux, hd]] at h
      rcases List.mem_cons.mp h with h | h
      · exact Or.inr (by simp [h])
      · rcases ih h with h | h
        · exact Or.inl h
        · exact Or.inr (by simp [h])

theorem filter_hangul_collWSAux : ∀ (l : List Char) (b : Bool),
    (collWSAux b l).filter isHangul = l.filter isHangul := by
  intro l
  induction l with
  | nil => intro b; rfl
  | cons d r ih =>
    intro b
    by_cases hd : isPySpace d
    · have hH : isHangul d = false := not_hangul_of_space hd
      cases b with
      | true =>
        rw [show collWSAux true (d :: r) = collWSAux true r by simp [collWSAux, hd]]
        rw [ih true, List.filter_cons, hH]
        simp
      | false =>
        rw [show collWSAux false (d :: r) = ' ' :: collWSAux true r by
          simp [collWSAux, hd]]
        rw [List.filter_cons, List.filter_cons, hH,
          show isHangul ' ' = false from by decide]
        simp [ih true]
    · rw [show collWSAux b (d :: r) = d :: collWSAux false r by simp [collWSAux, hd]]
      rw [List.filter_cons, List.filter_cons, ih false]

theorem collWSAux_true_head : ∀ {l : List Char} {c : Char},
    (collWSAux true l).head? = some c → isPySpace c = false := by
  intro l
  induction l with
  | nil => intro c h; simp [collWSAux] at h
  | cons d r ih =>
    intro c h
    by_cases hd : isPySpace d
    · rw [show collWSAux true (d :: r) = collWSAux true r by simp [collWSAux, hd]] at h
      exact ih h
    · rw [show collWSAux true (d :: r) = d :: collWSAux false r by
        simp [collWSAux, hd]] at h
      simp only [List.head?_cons, Option.some.injEq] at h
      rw [← h]
      exact Bool.eq_false_iff.mpr hd

theorem collWSAux_chain : ∀ (l : List Char) (b : Bool),
    List.Chain' (fun a b => isPySpace a = false ∨ isPySpace b = false) (collWSAux b l) := by
  intro l
  induction l with
  | nil => intro b; simp [collWSAux]
  | cons d r ih =>
    intro b
    by_cases hd : isPySpace d
    · cases b with
      | true =>
        rw [show collWSAux true (d :: r) = collWSAux true r by simp [collWSAux, hd]]
        exact ih true
      | false =>
        rw [show collWSAux false (d :: r) = ' ' :: collWSAux true r by
          simp [collWSAux, hd]]
        rw [List.chain'_cons']
        refine ⟨fun y hy => Or.inr (collWSAux_true_head hy), ih true⟩
    · rw [show collWSAux b (d :: r) = d :: collWSAux false r by simp [collWSAux, hd]]
      rw [List.chain'_cons']
      refine ⟨fun y _ => Or.inl (Bool.eq_false_iff.mpr hd), ih false⟩

theorem mem_dropWhile {p : Char → Bool} {l : List Char} {c : Char}
    (h : c ∈ l.dropWhile p) : c ∈ l := by
  obtain ⟨t, ht⟩ := List.dropWhile_suffix (l := l) p
  rw [← ht]
  simp [h]

theorem mem_dropEndWhile {p : Char → Bool} {l : List Char} {c : Char}
    (h : c ∈ dropEndWhile p l) : c ∈ l := by
  unfold dropEndWhile at h
  rw [List.mem_reverse] at h
  simpa using mem_dropWhile h

theorem mem_pyStrip {l : List Char} {c : Char} (h : c ∈ pyStrip l) : c ∈ l :=
  mem_dropWhile (mem_dropEndWhile h)

theorem filter_hangul_dropWhile_space : ∀ (l : List Char),
    (l.dropWhile isPySpace).filter isHangul = l.filter isHangul := by
  intro l
  induction l with
  | nil => rfl
  | cons d r ih =>
    by_cases hd : isPySpace d
    · rw [show (d :: r).dropWhile isPySpace = r.dropWhile isPySpace by
        simp [List.dropWhile, hd], ih, List.filter_cons, not_hangul_of_space hd]
      simp
    · rw [show (d :: r).dropWhile isPySpace = d :: r by simp [List.dropWhile, hd]]

theorem filter_hangul_pyStrip : ∀ (l : List Char),
    (pyStrip l).filter isHangul = l.filter isHangul := by
  intro l
  unfold pyStrip dropEndWhile
  rw [List.filter_reverse, filter_hangul_dropWhile_space, List.filter_reverse,
    List.reverse_reverse, filter_hangul_dropWhile_space]

theorem filter_hangul_filter_keep {keep : Char → Bool}
    (hk : ∀ c, isHangul c = true → keep c = true) : ∀ (l : List Char),
    (l.filter keep).filter isHangul = l.filter isHangul := by
  intro l
  induction l with
  | nil => rfl
  | cons d r ih =>
    rw [List.filter_cons]
    by_cases hkd : keep d = true
    · rw [if_pos hkd, List.filter_cons, List.filter_cons, ih]
    · have hH : isHangul d = false := by
        rw [Bool.eq_false_iff]
        intro hcon
        exact hkd (hk d hcon)
      rw [if_neg hkd, ih, List.filter_cons, hH]
      simp

theorem chain_dropWhile {P : Char → Char → Prop} {p : Char → Bool} {l : List Char}
    (h : List.Chain' P l) : List.Chain' P (l.dropWhile p) := by
  obtain ⟨t, ht⟩ := List.dropWhile_suffix (l := l) p
  rw [← ht] at h
  exact h.right_of_append

theorem dropEndWhile_append_eq {p : Char → Bool} (l : List Char) :
    ∃ t : List Char, dropEndWhile p l ++ t = l := by
  obtain ⟨t, ht⟩ := List.dropWhile_suffix (l := l.reverse) p
  refine ⟨t.reverse, ?_⟩
  unfold dropEndWhile
  rw [← List.reverse_append, ht, List.reverse_reverse]

theorem chain_dropEndWhile {P : Char → Char → Prop} {p : Char → Bool} {l : List Char}
    (h : List.Chain' P l) : List.Chain' P (dropEndWhile p l) := by
  obtain ⟨t, ht⟩ := dropEndWhile_append_eq (p := p) l
  rw [← ht] at h
  exact h.left_of_append

theorem head_dropWhile_not {p : Char → Bool} : ∀ {l : List Char} {c : Char},
    (l.dropWhile p).head? = some c → p c = false := by
  intro l
  induction l with
  | nil => intro c h; simp [List.dropWhile] at h
  | cons d r ih =>
    intro c h
    by_cases hd : p d
    · rw [show (d :: r).dropWhile p = r.dropWhile p by simp [List.dropWhile, hd]] at h
      exact ih h
    · rw [show (d :: r).dropWhile p = d :: r by simp [List.dropWhile, hd]] at h
      simp only [List.head?_cons, Option.some.injEq] at h
      rw [← h]
      exact Bool.eq_false_iff.mpr hd

theorem head_dropEndWhile {p : Char → Bool} {l : List Char} {c : Char}
    (h : (dropEndWhile p l).head? = some c) : l.head? = some c := by
  obtain ⟨t, ht⟩ := dropEndWhile_append_eq (p := p) l
  rw [← ht, List.head?_append, h]
  rfl

theorem head_pyStrip_not_space {l : List Char} {c : Char}
    (h : (pyStrip l).head? = some c) : isPySpace c = false :=
  head_dropWhile_not (head_dropEndWhile h)

theorem getLast_pyStrip_not_space {l : List Char} {c : Char}
    (h : (pyStrip l).getLast? = some c) : isPySpace c = false := by
  unfold pyStrip dropEndWhile at h
  rw [List.getLast?_reverse] at h
  exact head_dropWhile_not h

/-- C5 counterexample: `clean_title_brackets` does not remove `』` — its
character class contains `『` but not `』` — so `"『한』"` maps to `"한』"`,
which still contains `』`. -/
theorem C5_counterexample :
    clean_title_brackets "『한』" = "한』" ∧ '』' ∈ ("한』" : String).toList := by
  refine ⟨by decide, by decide⟩

/-- C5 (amended): `strip_brackets` removes every occurrence of all twelve
glyphs `《》〈〉«»「」『』<>`; `clean_title_brackets` removes every occurrence
of its own class `《》〈〉«»「」『'<>` — which lacks `』` (kept, as the
counterexample shows) and additionally removes the ASCII apostrophe.  Both
leave the Hangul characters of the title unchanged and in order, and both
produce output with no two adjacent whitespace characters and no leading or
trailing whitespace. -/
theorem C5_title_bracket_stripping :
    (∀ (t : String) (c : Char), dwGlyph c = true → c ∉ (strip_brackets t).toList) ∧
    (∀ t : String, (strip_brackets t).toList.filter isHangul = t.toList.filter isHangul) ∧
    (∀ (t : String) (c : Char), finGlyph c = true → c ∉ (clean_title_brackets t).toList) ∧
    (∀ t : String,
      (clean_title_brackets t).toList.filter isHangul = t.toList.filter isHangul) ∧
    (∀ t : String,
      List.Chain' (fun a b => isPySpace a = false ∨ isPySpace b = false)
        (strip_brackets t).toList ∧
      (∀ c, (strip_brackets t).toList.head? = some c → isPySpace c = false) ∧
      (∀ c, (strip_brackets t).toList.getLast? = some c → isPySpace c = false)) ∧
    (∀ t : String,
      List.Chain' (fun a b => isPySpace a = false ∨ isPySpace b = false)
        (clean_title_brackets t).toList ∧
      (∀ c, (clean_title_brackets t).toList.head? = some c → isPySpace c = false) ∧
      (∀ c, (clean_title_brackets t).toList.getLast? = some c → isPySpace c = false)) := by
  have hXdw : ∀ (t : String) (c : Char),
      c ∈ t.toList.filter (fun c => !dwGlyph c) → c ≠ '<' ∧ c ≠ '>' := by
    intro t c hc
    have h2 := (List.mem_filter.mp hc).2
    constructor
    · intro he
      subst he
      exact absurd h2 (by decide)
    · intro he
      subst he
      exact absurd h2 (by decide)
  have hXfin : ∀ (t : String) (c : Char),
      c ∈ t.toList.filter (fun c => !finGlyph c) → c ≠ '<' ∧ c ≠ '>' := by
    intro t c hc
    have h2 := (List.mem_filter.mp hc).2
    constructor
    · intro he
      subst he
      exact absurd h2 (by decide)
    · intro he
      subst he
      exact absurd h2 (by decide)
  refine ⟨?_, ?_, ?_, ?_, ?_, ?_⟩
  · intro t c hg
    by_cases ht : t = ""
    · simp [strip_brackets, ht]
    · intro hmem
      have hbody : (strip_brackets t).toList =
          pyStrip (collapseWS (removeLtLt (t.toList.filter (fun c => !dwGlyph c)))) := by
        simp [strip_brackets, ht, String.toList]
      rw [hbody, removeLtLt_eq_self (fun c hc => hXdw t c hc)] at hmem
      rcases mem_collWSAux (mem_pyStrip hmem) with h2 | h2
      · subst h2
        simp [dwGlyph] at hg
      · have h3 := (List.mem_filter.mp h2).2
        rw [hg] at h3
        simp at h3
  · intro t
    by_cases ht : t = ""
    · simp [strip_brackets, ht]
    · have hbody : (strip_brackets t).toList =
          pyStrip (collapseWS (removeLtLt (t.toList.filter (fun c => !dwGlyph c)))) := by
        simp [strip_brackets, ht, String.toList]
      rw [hbody, removeLtLt_eq_self (fun c hc => hXdw t c hc), filter_hangul_pyStrip,
        show ∀ y, collapseWS y = collWSAux false y from fun _ => rfl,
        filter_hangul_collWSAux]
      refine filter_hangul_filter_keep ?_ _
      intro c hH
      cases hdw : dwGlyph c with
      | true => rw [dwGlyph_not_hangul hdw] at hH; cases hH
      | false => simp
  · intro t c hg
    intro hmem
    have hbody : (clean_title_brackets t).toList =
        pyStrip (collapseWS (removeLtLt (t.toList.filter (fun c => !finGlyph c)))) := by
      simp [clean_title_brackets, String.toList]
    rw [hbody, removeLtLt_eq_self (fun c hc => hXfin t c hc)] at hmem
    rcases mem_collWSAux (mem_pyStrip hmem) with h2 | h2
    · subst h2
      simp [finGlyph] at hg
    · have h3 := (List.mem_filter.mp h2).2
      rw [hg] at h3
      simp at h3
  · intro t
    have hbody : (clean_title_brackets t).toList =
        pyStrip (collapseWS (removeLtLt (t.toList.filter (fun c => !finGlyph c)))) := by
      simp [clean_title_brackets, String.toList]
    rw [hbody, removeLtLt_eq_self (fun c hc => hXfin t c hc), filter_hangul_pyStrip,
      show ∀ y, collapseWS y = collWSAux false y from fun _ => rfl,
      filter_hangul_collWSAux]
    refine filter_hangul_filter_keep ?_ _
    intro c hH
    cases hdw : finGlyph c with
    | true => rw [finGlyph_not_hangul hdw] at hH; cases hH
    | false => simp
  · intro t
    by_cases ht : t = ""
    · simp [strip_brackets, ht]
    · have hbody : (strip_brackets t).toList =
          pyStrip (collapseWS (removeLtLt (t.toList.filter (fun c => !dwGlyph c)))) := by
        simp [strip_brackets, ht, String.toList]
      rw [hbody]
      refine ⟨?_, ?_, ?_⟩
      · exact chain_dropEndWhile (chain_dropWhile (collWSAux_chain _ false))
      · intro c hc
        exact head_pyStrip_not_space hc
      · intro c hc
        exact getLast_pyStrip_not_space hc
  · intro t
    have hbody : (clean_title_brackets t).toList =
        pyStrip (collapseWS (removeLtLt (t.toList.filter (fun c => !finGlyph c)))) := by
      simp [clean_title_brackets, String.toList]
    rw [hbody]
    refine ⟨?_, ?_, ?_⟩
    · exact chain_dropEndWhile (chain_dropWhile (collWSAux_chain _ false))
    · intro c hc
      exact head_pyStrip_not_space hc
    · intro c hc
      exact getLast_pyStrip_not_space hc

/-- C5 witness: glyph removal and Hangul preservation evaluated at concrete
titles. -/
theorem C5_witness :
    '《' ∉ (strip_brackets "《한국 드라마》").toList ∧
    '』' ∉ (strip_brackets "『한』").toList ∧
    '『' ∉ (clean_title_brackets "『한』").toList := by
  refine ⟨?_, ?_, ?_⟩
  · exact C5_title_bracket_stripping.1 "《한국 드라마》" '《' (by decide)
  · exact C5_title_bracket_stripping.1 "『한』" '』' (by decide)
  · exact C5_title_bracket_stripping.2.2.1 "『한』" '『' (by decide)

/-! ## Claim C6: episode-number normalization -/

theorem not_ctrl_of_digit {c : Char} (h : isPyDigit c = true) : isCtrlEB c = false := by
  simp only [isPyDigit, Bool.and_eq_true, decide_eq_true_eq] at h
  rw [Bool.eq_false_iff]
  intro hcon
  simp only [isCtrlEB, Bool.or_eq_true, Bool.and_eq_true, decide_eq_true_eq] at hcon
  omega

theorem footClose_mem : ∀ {l r : List Char}, footClose l = some r → ∀ c ∈ r, c ∈ l := by
  intro l
  induction l with
  | nil => intro r h; simp [footClose] at h
  | cons d l ih =>
    intro r h c hc
    by_cases hd : d = ']'
    · rw [show footClose (d :: l) = some l by simp [footClose, hd]] at h
      have := Option.some.inj h
      subst this
      simp [hc]
    · rw [show footClose (d :: l) = footClose l by simp [footClose, hd]] at h
      simp [ih h c hc]

theorem mem_removeFootF : ∀ (fuel : Nat) {l : List Char} {c : Char},
    c ∈ removeFootF fuel l → c ∈ l := by
  intro fuel
  induction fuel with
  | zero => intro l c h; exact h
  | succ f ih =>
    intro l c h
    cases l with
    | nil => simp [removeFootF] at h
    | cons d r =>
      by_cases hd : d = '['
      · subst hd
        cases hfc : footClose r with
        | some rest =>
          rw [show removeFootF (f + 1) ('[' :: r) = removeFootF f rest by
            simp [removeFootF, hfc]] at h
          exact List.mem_cons_of_mem _ (footClose_mem hfc c (ih h))
        | none =>
          rw [show removeFootF (f + 1) ('[' :: r) = '[' :: removeFootF f r by
            simp [removeFootF, hfc]] at h
          rcases List.mem_cons.mp h with h | h
          · simp [h]
          · simp [ih h]
      · rw [show removeFootF (f + 1) (d :: r) = d :: removeFootF f r by
          simp [removeFootF, hd]] at h
        rcases List.mem_cons.mp h with h | h
        · simp [h]
        · simp [ih h]

theorem mem_replaceCR : ∀ {l : List Char} {c : Char},
    c ∈ replaceCR l → c = '\n' ∨ c ∈ l := by
  intro l
  induction l using replaceCR.induct with
  | case1 => intro c h; simp [replaceCR] at h
  | case2 r2 ih =>
    intro c h
    rw [show replaceCR ('\r' :: '\n' :: r2) = '\n' :: replaceCR r2 from rfl] at h
    rcases List.mem_cons.mp h with h | h
    · exact Or.inl h
    · rcases ih h with h | h
      · exact Or.inl h
      · exact Or.inr (by simp [h])
  | case3 d r2 hd ih =>
    intro c h
    rw [show replaceCR ('\r' :: d :: r2) = '\n' :: replaceCR (d :: r2) by
      simp [replaceCR, hd]] at h
    rcases List.mem_cons.mp h with h | h
    · exact Or.inl h
    · rcases ih h with h | h
      · exact Or.inl h
      · exact Or.inr (by simp [List.mem_cons.mp h])
  | case4 =>
    intro c h
    rw [show replaceCR ['\r'] = ['\n'] from rfl] at h
    simp at h
    exact Or.inl h
  | case5 d r hd ih =>
    intro c h
    rw [show replaceCR (d :: r) = d :: replaceCR r by
      rw [replaceCR.eq_def]
      simp only [if_neg hd]] at h
    rcases List.mem_cons.mp h with h | h
    · exact Or.inr (by simp [h])
    · rcases ih h with h | h
      · exact Or.inl h
      · exact Or.inr (by simp [h])

theorem nd_cleanTextEB {s : String} (h : ∀ c ∈ s.toList, isPyDigit c = false) :
    ∀ c ∈ (cleanTextEB s).toList, isPyDigit c = false := by
  intro c hc
  by_cases hs : s = ""
  · rw [hs] at hc
    simp [cleanTextEB] at hc
  · have hbody : (cleanTextEB s).toList =
        pyStrip (stripCtrl (collapseWS (replaceCR (removeFoot s.toList)))) := by
      simp [cleanTextEB, hs, String.toList]
    rw [hbody] at hc
    have h1 := mem_pyStrip hc
    have h2 := (List.mem_filter.mp h1).1
    rcases mem_collWSAux h2 with h3 | h3
    · subst h3
      decide
    · rcases mem_replaceCR h3 with h4 | h4
      · subst h4
        decide
      · exact h c (mem_removeFootF _ h4)

theorem firstDigitRun_none : ∀ {l : List Char},
    (∀ c ∈ l, isPyDigit c = false) → firstDigitRun l = none := by
  intro l
  induction l with
  | nil => intro _; rfl
  | cons c r ih =>
    intro h
    show (if isPyDigit c = true then some (c :: r.takeWhile isPyDigit)
      else firstDigitRun r) = none
    rw [if_neg (by simp [h c (by simp)]), ih (fun c hc => h c (by simp [hc]))]

theorem removeFootF_append {ds : List Char} (h : ∀ c ∈ ds, c ≠ '[') :
    ∀ (fuel : Nat) (X : List Char),
      removeFootF (ds.length + fuel) (ds ++ X) = ds ++ removeFootF fuel X := by
  induction ds with
  | nil => intro fuel X; simp
  | cons d ds ih =>
    intro fuel X
    have hd : d ≠ '[' := h d (by simp)
    have harr : (d :: ds).length + fuel = (ds.length + fuel) + 1 := by
      simp only [List.length_cons]
      omega
    rw [harr, List.cons_append,
      show removeFootF ((ds.length + fuel) + 1) (d :: (ds ++ X)) =
        d :: removeFootF (ds.length + fuel) (ds ++ X) by simp [removeFootF, hd],
      ih (fun c hc => h c (by simp [hc])) fuel X]
    rfl

theorem removeFoot_append {ds X : List Char} (h : ∀ c ∈ ds, c ≠ '[') :
    removeFoot (ds ++ X) = ds ++ removeFoot X := by
  unfold removeFoot
  rw [List.length_append]
  exact removeFootF_append h X.length X

theorem replaceCR_append {ds X : List Char} (h : ∀ c ∈ ds, c ≠ '\r') :
    replaceCR (ds ++ X) = ds ++ replaceCR X := by
  induction ds with
  | nil => rfl
  | cons d ds ih =>
    rw [List.cons_append,
      show replaceCR (d :: (ds ++ X)) = d :: replaceCR (ds ++ X) by
        rw [replaceCR.eq_def]
        simp only [if_neg (h d (by simp))],
      ih (fun c hc => h c (by simp [hc]))]
    rfl

theorem collWSAux_false_append {ds X : List Char} (h : ∀ c ∈ ds, isPySpace c = false) :
    collWSAux false (ds ++ X) = ds ++ collWSAux false X := by
  induction ds with
  | nil => rfl
  | cons d ds ih =>
    rw [List.cons_append,
      show collWSAux false (d :: (ds ++ X)) = d :: collWSAux false (ds ++ X) by
        simp [collWSAux, h d (by simp)],
      ih (fun c hc => h c (by simp [hc]))]
    rfl

theorem dropEndWhile_append_all_fail {p : Char → Bool} {ds X : List Char}
    (h : ∀ c ∈ ds, p c = false) :
    dropEndWhile p (ds ++ X) = ds ++ dropEndWhile p X := by
  unfold dropEndWhile
  rw [List.reverse_append, List.dropWhile_append]
  by_cases he : (X.reverse.dropWhile p).isEmpty
  · rw [if_pos he, dropWhile_eq_self_of (fun c hc => h c (by simpa using hc)),
      List.reverse_reverse, List.isEmpty_iff.mp he]
    simp
  · rw [if_neg he, List.reverse_append, List.reverse_reverse]

theorem takeWhile_append_all {p : Char → Bool} {ds X : List Char}
    (h : ∀ c ∈ ds, p c = true) :
    (ds ++ X).takeWhile p = ds ++ X.takeWhile p := by
  induction ds with
  | nil => rfl
  | cons d ds ih =>
    rw [List.cons_append, List.takeWhile_cons, if_pos (h d (by simp)),
      ih (fun c hc => h c (by simp [hc])), List.cons_append]

theorem takeWhile_digit_nil {X : List Char} (h : ∀ c ∈ X, isPyDigit c = false) :
    X.takeWhile isPyDigit = [] := by
  cases X with
  | nil => rfl
  | cons d r =>
    rw [List.takeWhile_cons, if_neg (by simp [h d (by simp)])]

/-- `episode_bild.clean_text` on a nonempty leading digit run followed by
arbitrary text: the run passes through every cleaning stage untouched and
the rest cleans independently. -/
theorem cleanTextEB_leading {ds rest : List Char} (hne : ds ≠ [])
    (hd : ∀ c ∈ ds, isPyDigit c = true) :
    (cleanTextEB ⟨ds ++ rest⟩).toList = ds ++ cleanTailEB rest := by
  have hs : (⟨ds ++ rest⟩ : String) ≠ "" := by
    intro hcon
    have h2 := congrArg String.data hcon
    cases ds with
    | nil => exact hne rfl
    | cons x xs => simp at h2
  have hdsp : ∀ c ∈ ds, isPySpace c = false := fun c hc => not_space_of_digit (hd c hc)
  have hnb : ∀ c ∈ ds, c ≠ '[' := fun c hc => isPyDigit_ne (hd c hc) (by decide)
  have hnr : ∀ c ∈ ds, c ≠ '\r' := fun c hc => isPyDigit_ne (hd c hc) (by decide)
  have hnc : ∀ c ∈ ds, (fun c => !isCtrlEB c) c = true := fun c hc => by
    simp [not_ctrl_of_digit (hd c hc)]
  have h0 : (cleanTextEB ⟨ds ++ rest⟩).toList =
      pyStrip (stripCtrl (collapseWS (replaceCR (removeFoot (ds ++ rest))))) := by
    simp [cleanTextEB, hs, String.toList]
  rw [h0, removeFoot_append hnb, replaceCR_append hnr,
    show ∀ y, collapseWS y = collWSAux false y from fun _ => rfl,
    collWSAux_false_append hdsp]
  unfold stripCtrl pyStrip cleanTailEB
  rw [List.filter_append, List.filter_eq_self.mpr hnc, List.dropWhile_append,
    if_neg (by
      rw [dropWhile_eq_self_of hdsp]
      simpa using hne),
    dropWhile_eq_self_of hdsp, dropEndWhile_append_all_fail hdsp]

/-- C6 counterexample: a digit-free string does not pass through unchanged —
`normalize_episode_no` returns its `clean_text` form, here with the interior
double space collapsed — and a leading integer followed by arbitrary text
does not always yield that integer: in `"1[a]2"` the leading integer is `1`
(the next character `[` is no digit), yet footnote removal glues the later
`2` onto the `1` and the result is `"12화"`, not `"1화"`. -/
theorem C6_counterexample :
    (normalize_episode_no "가  나" = "가 나" ∧ ("가 나" : String) ≠ "가  나") ∧
    ("1[a]2".toList = ['1'] ++ '[' :: "a]2".toList ∧ isPyDigit '[' = false ∧
      normalize_episode_no "1[a]2" = "12화" ∧ ("12화" : String) ≠ "1화") := by
  exact ⟨⟨by decide, by decide⟩, by decide, by decide, by decide, by decide⟩

/-- C6 (amended): a string without a digit maps to its `clean_text` form
(footnotes removed, whitespace collapsed, control characters stripped,
trimmed — not necessarily the original string); a string that is a nonempty
leading digit run followed by arbitrary text always maps to `"<int>화"`,
where the integer is read from the first digit run of the cleaned text —
the leading run extended by whatever digits cleaning brings right next to
it; in particular it is exactly the leading integer (leading zeros removed)
whenever the cleaned remainder does not itself start with a digit. -/
theorem C6_episode_no_normalization :
    (∀ s : String, (∀ c ∈ s.toList, isPyDigit c = false) →
      normalize_episode_no s = cleanTextEB s) ∧
    (∀ ds rest : List Char, ds ≠ [] → (∀ c ∈ ds, isPyDigit c = true) →
      normalize_episode_no ⟨ds ++ rest⟩ =
        toString (digitsVal (ds ++ (cleanTailEB rest).takeWhile isPyDigit)) ++ "화") ∧
    (∀ ds rest : List Char, ds ≠ [] → (∀ c ∈ ds, isPyDigit c = true) →
      (∀ c ∈ (cleanTailEB rest).take 1, isPyDigit c = false) →
      normalize_episode_no ⟨ds ++ rest⟩ = toString (digitsVal ds) ++ "화") := by
  have hgen : ∀ ds rest : List Char, ds ≠ [] → (∀ c ∈ ds, isPyDigit c = true) →
      normalize_episode_no ⟨ds ++ rest⟩ =
        toString (digitsVal (ds ++ (cleanTailEB rest).takeWhile isPyDigit)) ++ "화" := by
    intro ds rest hne hd
    obtain ⟨d, ds2, rfl⟩ : ∃ a r, ds = a :: r := by
      cases ds with
      | nil => exact absurd rfl hne
      | cons a r => exact ⟨a, r, rfl⟩
    unfold normalize_episode_no
    rw [cleanTextEB_leading hne hd, List.cons_append,
      show ∀ Y, firstDigitRun (d :: (ds2 ++ Y)) = (if isPyDigit d = true then
        some (d :: (ds2 ++ Y).takeWhile isPyDigit) else firstDigitRun (ds2 ++ Y))
        from fun _ => rfl,
      if_pos (hd d (by simp)),
      takeWhile_append_all (fun c hc => hd c (by simp [hc]))]
    simp
  refine ⟨?_, hgen, ?_⟩
  · intro s h
    unfold normalize_episode_no
    rw [firstDigitRun_none (nd_cleanTextEB h)]
  · intro ds rest hne hd hhead
    rw [hgen ds rest hne hd,
      show (cleanTailEB rest).takeWhile isPyDigit = [] by
        cases hX : cleanTailEB rest with
        | nil => rfl
        | cons c r =>
          rw [List.takeWhile_cons, if_neg (by
            simp [hhead c (by rw [hX]; simp)])],
      List.append_nil]

/-- C6 witness: a digit-free title passes through as its cleaned form, a
zero-padded leading number becomes `"<int>화"`, and a leading run followed
by text that still contains later digits keeps just the leading integer
when the cleaned remainder starts with a non-digit (`"1화 2부"` → `"1화"`). -/
theorem C6_witness :
    normalize_episode_no "드라마" = "드라마" ∧
    normalize_episode_no "007화 제목" = "7화" ∧
    normalize_episode_no "1화 2부" = "1화" := by
  refine ⟨?_, ?_, ?_⟩
  · exact (C6_episode_no_normalization.1 "드라마" (by decide)).trans (by decide)
  · exact (C6_episode_no_normalization.2.2 "007".toList "화 제목".toList (by decide)
      (by decide) (by decide)).trans (by decide)
  · exact (C6_episode_no_normalization.2.2 "1".toList "화 2부".toList (by decide)
      (by decide) (by decide)).trans (by decide)

/-! ## Claim C4: totality and correctness of normalize_kr_date -/

theorem not_dotspace_of_digit {c : Char} (h : isPyDigit c = true) :
    isDotSpace c = false := by
  simp only [isPyDigit, Bool.and_eq_true, decide_eq_true_eq] at h
  rw [Bool.eq_false_iff]
  intro hcon
  simp only [isDotSpace, isPySpace, Bool.or_eq_true, Bool.and_eq_true,
    decide_eq_true_eq] at hcon
  omega

theorem dropWhile_eq_self_of_head_fail {p : Char → Bool} {l : List Char}
    (h : ∀ c, l.head? = some c → p c = false) : l.dropWhile p = l := by
  cases l with
  | nil => rfl
  | cons c r => simp [List.dropWhile, h c rfl]

theorem dropWhile_append_head_fail {p : Char → Bool} {P rest : List Char}
    (h : ∀ c, rest.head? = some c → p c = false) :
    (P ++ rest).dropWhile p = P.dropWhile p ++ rest := by
  rw [List.dropWhile_append]
  by_cases he : (P.dropWhile p).isEmpty
  · rw [if_pos he, List.isEmpty_iff.mp he, dropWhile_eq_self_of_head_fail h]
    rfl
  · rw [if_neg he]

theorem dropEndWhile_append_last_fail {p : Char → Bool} {A Q : List Char}
    (h : ∀ c, A.reverse.head? = some c → p c = false) :
    dropEndWhile p (A ++ Q) = A ++ dropEndWhile p Q := by
  unfold dropEndWhile
  rw [List.reverse_append, List.dropWhile_append]
  by_cases he : (Q.reverse.dropWhile p).isEmpty
  · rw [if_pos he, List.isEmpty_iff.mp he, dropWhile_eq_self_of_head_fail h,
      List.reverse_reverse]
    simp
  · rw [if_neg he, List.reverse_append, List.reverse_reverse]

theorem mem_krRep {a c : Char} (h : c ∈ krRep a) : c = '-' ∨ c = a := by
  unfold krRep at h
  by_cases h1 : a = '년'
  · rw [if_pos h1] at h
    simp at h
    exact Or.inl h
  · rw [if_neg h1] at h
    by_cases h2 : a = '월'
    · rw [if_pos h2] at h
      simp at h
      exact Or.inl h
    · rw [if_neg h2] at h
      by_cases h3 : a = '일'
      · rw [if_pos h3] at h
        simp at h
      · rw [if_neg h3] at h
        simp at h
        exact Or.inr h

theorem mem_krReplace {l : List Char} {c : Char} (h : c ∈ krReplace l) :
    c = '-' ∨ c ∈ l := by
  unfold krReplace at h
  rw [List.mem_flatMap] at h
  obtain ⟨a, ha, hc⟩ := h
  rcases mem_krRep hc with h | h
  · exact Or.inl h
  · subst h
    exact Or.inr ha

theorem krRep_digit {c : Char} (h : isPyDigit c = true) : krRep c = [c] := by
  unfold krRep
  rw [if_neg (isPyDigit_ne h (by decide)), if_neg (isPyDigit_ne h (by decide)),
    if_neg (isPyDigit_ne h (by decide))]

theorem krReplace_digits_append {ds X : List Char} (h : ∀ c ∈ ds, isPyDigit c = true) :
    krReplace (ds ++ X) = ds ++ krReplace X := by
  induction ds with
  | nil => rfl
  | cons d ds ih =>
    rw [List.cons_append]
    unfold krReplace
    rw [List.flatMap_cons, krRep_digit (h d (by simp))]
    unfold krReplace at ih
    rw [ih (fun c hc => h c (by simp [hc]))]
    rfl

theorem krReplace_cons (a : Char) (X : List Char) :
    krReplace (a :: X) = krRep a ++ krReplace X := by
  unfold krReplace
  rw [List.flatMap_cons]

theorem mem_dotDashAux : ∀ {l : List Char} {b : Bool} {c : Char},
    c ∈ dotDashAux b l → c = '-' ∨ c ∈ l := by
  intro l
  induction l with
  | nil => intro b c h; simp [dotDashAux] at h
  | cons d r ih =>
    intro b c h
    by_cases hd : isDotSpace d
    · cases b with
      | true =>
        rw [show dotDashAux true (d :: r) = dotDashAux true r by simp [dotDashAux, hd]] at h
        rcases ih h with h | h
        · exact Or.inl h
        · exact Or.inr (by simp [h])
      | false =>
        rw [show dotDashAux false (d :: r) = '-' :: dotDashAux true r by
          simp [dotDashAux, hd]] at h
        rcases List.mem_cons.mp h with h | h
        · exact Or.inl h
        · rcases ih h with h | h
          · exact Or.inl h
          · exact Or.inr (by simp [h])
    · rw [show dotDashAux b (d :: r) = d :: dotDashAux false r by simp [dotDashAux, hd]] at h
      rcases List.mem_cons.mp h with h | h
      · exact Or.inr (by simp [h])
      · rcases ih h with h | h
        · exact Or.inl h
        · exact Or.inr (by simp [h])

theorem dotDashAux_append_head_fail {xs ys : List Char}
    (hy : ∀ c, ys.head? = some c → isDotSpace c = false) :
    ∀ b, dotDashAux b (xs ++ ys) = dotDashAux b xs ++ dotDashAux false ys := by
  induction xs with
  | nil =>
    intro b
    cases ys with
    | nil => simp [dotDashAux]
    | cons y yr =>
      rw [List.nil_append, show dotDashAux b ([] : List Char) = [] from rfl,
        List.nil_append,
        show dotDashAux b (y :: yr) = y :: dotDashAux false yr by
          simp [dotDashAux, hy y rfl],
        show dotDashAux false (y :: yr) = y :: dotDashAux false yr by
          simp [dotDashAux, hy y rfl]]
  | cons x xs ih =>
    intro b
    by_cases hx : isDotSpace x
    · cases b with
      | true =>
        rw [List.cons_append,
          show dotDashAux true (x :: (xs ++ ys)) = dotDashAux true (xs ++ ys) by
            simp [dotDashAux, hx],
          show dotDashAux true (x :: xs) = dotDashAux true xs by simp [dotDashAux, hx],
          ih true]
      | false =>
        rw [List.cons_append,
          show dotDashAux false (x :: (xs ++ ys)) = '-' :: dotDashAux true (xs ++ ys) by
            simp [dotDashAux, hx],
          show dotDashAux false (x :: xs) = '-' :: dotDashAux true xs by
            simp [dotDashAux, hx],
          ih true]
        rfl
    · rw [List.cons_append,
        show dotDashAux b (x :: (xs ++ ys)) = x :: dotDashAux false (xs ++ ys) by
          simp [dotDashAux, hx],
        show dotDashAux b (x :: xs) = x :: dotDashAux false xs by simp [dotDashAux, hx],
        ih false]
      rfl

theorem dotDashAux_false_nonclass_front {xs X : List Char}
    (h : ∀ c ∈ xs, isDotSpace c = false) :
    dotDashAux false (xs ++ X) = xs ++ dotDashAux false X := by
  induction xs with
  | nil => rfl
  | cons x xs ih =>
    rw [List.cons_append,
      show dotDashAux false (x :: (xs ++ X)) = x :: dotDashAux false (xs ++ X) by
        simp [dotDashAux, h x (by simp)],
      ih (fun c hc => h c (by simp [hc]))]
    rfl

theorem dotDashAux_nonclass_cons {x : Char} {xs X : List Char}
    (hx : isDotSpace x = false) (h : ∀ c ∈ xs, isDotSpace c = false) (b : Bool) :
    dotDashAux b ((x :: xs) ++ X) = (x :: xs) ++ dotDashAux false X := by
  rw [List.cons_append,
    show dotDashAux b (x :: (xs ++ X)) = x :: dotDashAux false (xs ++ X) by
      simp [dotDashAux, hx],
    dotDashAux_false_nonclass_front h]
  rfl

theorem mem_dashCollapseAux : ∀ {l : List Char} {b : Bool} {c : Char},
    c ∈ dashCollapseAux b l → c ∈ l := by
  intro l
  induction l with
  | nil => intro b c h; simp [dashCollapseAux] at h
  | cons d r ih =>
    intro b c h
    by_cases hd : d = '-'
    · subst hd
      cases b with
      | true =>
        rw [show dashCollapseAux true ('-' :: r) = dashCollapseAux true r by
          simp [dashCollapseAux]] at h
        simp [ih h]
      | false =>
        rw [show dashCollapseAux false ('-' :: r) = '-' :: dashCollapseAux true r by
          simp [dashCollapseAux]] at h
        rcases List.mem_cons.mp h with h | h
        · simp [h]
        · simp [ih h]
    · rw [show dashCollapseAux b (d :: r) = d :: dashCollapseAux false r by
        simp [dashCollapseAux, hd]] at h
      rcases List.mem_cons.mp h with h | h
      · simp [h]
      · simp [ih h]

theorem dashCollapseAux_true_alldash {A : List Char} (h : ∀ c ∈ A, c = '-') :
    ∀ X, dashCollapseAux true (A ++ X) = dashCollapseAux true X := by
  induction A with
  | nil => intro X; rfl
  | cons a A ih =>
    intro X
    rw [List.cons_append, (h a (by simp) : a = '-'),
      show dashCollapseAux true ('-' :: (A ++ X)) = dashCollapseAux true (A ++ X) by
        simp [dashCollapseAux],
      ih (fun c hc => h c (by simp [hc]))]

theorem dashCollapseAux_false_nondash_front {xs X : List Char}
    (h : ∀ c ∈ xs, c ≠ '-') :
    dashCollapseAux false (xs ++ X) = xs ++ dashCollapseAux false X := by
  induction xs with
  | nil => rfl
  | cons x xs ih =>
    rw [List.cons_append,
      show dashCollapseAux false (x :: (xs ++ X)) = x :: dashCollapseAux false (xs ++ X) by
        simp [dashCollapseAux, h x (by simp)],
      ih (fun c hc => h c (by simp [hc]))]
    rfl

theorem dashCollapseAux_true_nondash_cons {x : Char} {xs X : List Char}
    (hx : x ≠ '-') (h : ∀ c ∈ xs, c ≠ '-') :
    dashCollapseAux true ((x :: xs) ++ X) = (x :: xs) ++ dashCollapseAux false X := by
  rw [List.cons_append,
    show dashCollapseAux true (x :: (xs ++ X)) = x :: dashCollapseAux false (xs ++ X) by
      simp [dashCollapseAux, hx],
    dashCollapseAux_false_nondash_front h]
  rfl

theorem filter_keep_digits {ds : List Char} (h : ∀ c ∈ ds, isPyDigit c = true) :
    ds.filter (fun c => isPyDigit c || c = '-') = ds := by
  rw [List.filter_eq_self]
  intro c hc
  simp [h c hc]

theorem filter_keep_nd_alldash {l : List Char} (h : ∀ c ∈ l, isPyDigit c = false) :
    ∀ c ∈ l.filter (fun c => isPyDigit c || c = '-'), c = '-' := by
  intro c hc
  have h1 := List.mem_filter.mp hc
  have h2 := h1.2
  rw [h c h1.1] at h2
  simpa using h2

theorem dashCollapse_false_alldash {Q : List Char} (h : ∀ c ∈ Q, c = '-') :
    dashCollapseAux false Q = [] ∨ dashCollapseAux false Q = ['-'] := by
  cases Q with
  | nil => exact Or.inl rfl
  | cons q Q2 =>
    right
    rw [(h q (by simp) : q = '-'),
      show dashCollapseAux false ('-' :: Q2) = '-' :: dashCollapseAux true Q2 by
        simp [dashCollapseAux]]
    have h2 := dashCollapseAux_true_alldash (A := Q2) (fun c hc => h c (by simp [hc])) []
    rw [List.append_nil] at h2
    rw [h2]
    rfl

theorem stripDashes_pads (core pad1 pad2 : List Char)
    (h1 : pad1 = [] ∨ pad1 = ['-']) (h2 : pad2 = [] ∨ pad2 = ['-'])
    (hne : core ≠ [])
    (hh : ∀ c, core.head? = some c → c ≠ '-')
    (hl : ∀ c, core.reverse.head? = some c → c ≠ '-') :
    stripDashes (pad1 ++ core ++ pad2) = core := by
  obtain ⟨a, r, rfl⟩ : ∃ a r, core = a :: r := by
    cases core with
    | nil => exact absurd rfl hne
    | cons a r => exact ⟨a, r, rfl⟩
  unfold stripDashes
  rw [List.append_assoc]
  have hhead : ∀ c : Char, ((a :: r) ++ pad2).head? = some c → (c = '-' : Bool) = false := by
    intro c hc
    simp only [List.cons_append, List.head?_cons, Option.some.injEq] at hc
    subst hc
    simp [hh a rfl]
  have hdw : (pad1 ++ ((a :: r) ++ pad2)).dropWhile (fun c => c = '-') =
      (a :: r) ++ pad2 := by
    rcases h1 with h1 | h1
    · rw [h1, List.nil_append]
      exact dropWhile_eq_self_of_head_fail hhead
    · rw [h1, List.cons_append, List.nil_append,
        show ('-' :: ((a :: r) ++ pad2)).dropWhile (fun c => c = '-') =
          ((a :: r) ++ pad2).dropWhile (fun c => c = '-') by simp [List.dropWhile]]
      exact dropWhile_eq_self_of_head_fail hhead
  rw [hdw, dropEndWhile_append_last_fail (by
    intro c hc
    simp [hl c hc])]
  rcases h2 with h2 | h2
  · rw [h2, show dropEndWhile (fun c => c = '-') ([] : List Char) = [] by decide,
      List.append_nil]
  · rw [h2, show dropEndWhile (fun c => c = '-') ['-'] = [] by decide,
      List.append_nil]

theorem reverse_head_append_right {A B : List Char} (hB : B ≠ []) :
    (A ++ B).reverse.head? = B.reverse.head? := by
  rw [List.reverse_append, List.head?_append]
  cases hb : B.reverse.head? with
  | some x => rfl
  | none =>
    exact absurd (by simpa using List.head?_eq_none_iff.mp hb) hB

theorem dashCollapse_strip_core {P4 Q4 Yd Md Dd : List Char}
    (hP : ∀ c ∈ P4, c = '-') (hQ : ∀ c ∈ Q4, c = '-')
    (hY : ∀ c ∈ Yd, isPyDigit c = true) (hYne : Yd ≠ [])
    (hM : ∀ c ∈ Md, isPyDigit c = true) (hMne : Md ≠ [])
    (hD : ∀ c ∈ Dd, isPyDigit c = true) (hDne : Dd ≠ []) :
    stripDashes (dashCollapseAux false
      (P4 ++ (Yd ++ '-' :: '-' :: Md ++ '-' :: '-' :: Dd ++ Q4))) =
      Yd ++ '-' :: Md ++ '-' :: Dd := by
  have hYnd : ∀ c ∈ Yd, c ≠ '-' := fun c hc => isPyDigit_ne (hY c hc) (by decide)
  have hMnd : ∀ c ∈ Md, c ≠ '-' := fun c hc => isPyDigit_ne (hM c hc) (by decide)
  have hDnd : ∀ c ∈ Dd, c ≠ '-' := fun c hc => isPyDigit_ne (hD c hc) (by decide)
  obtain ⟨y, Yr, rfl⟩ : ∃ y Yr, Yd = y :: Yr := by
    cases Yd with
    | nil => exact absurd rfl hYne
    | cons y Yr => exact ⟨y, Yr, rfl⟩
  obtain ⟨m, Mr, rfl⟩ : ∃ m Mr, Md = m :: Mr := by
    cases Md with
    | nil => exact absurd rfl hMne
    | cons m Mr => exact ⟨m, Mr, rfl⟩
  obtain ⟨d0, Dr, rfl⟩ : ∃ d0 Dr, Dd = d0 :: Dr := by
    cases Dd with
    | nil => exact absurd rfl hDne
    | cons d0 Dr => exact ⟨d0, Dr, rfl⟩
  have h5 : dashCollapseAux false
      ('-' :: '-' :: ((m :: Mr) ++ '-' :: '-' :: ((d0 :: Dr) ++ Q4))) =
      '-' :: ((m :: Mr) ++ '-' :: ((d0 :: Dr) ++ dashCollapseAux false Q4)) := by
    rw [show dashCollapseAux false ('-' :: '-' :: ((m :: Mr) ++ '-' :: '-' ::
        ((d0 :: Dr) ++ Q4))) = '-' :: dashCollapseAux true ('-' :: ((m :: Mr) ++
        '-' :: '-' :: ((d0 :: Dr) ++ Q4))) by simp [dashCollapseAux],
      show dashCollapseAux true ('-' :: ((m :: Mr) ++ '-' :: '-' ::
        ((d0 :: Dr) ++ Q4))) = dashCollapseAux true ((m :: Mr) ++ '-' :: '-' ::
        ((d0 :: Dr) ++ Q4)) by simp [dashCollapseAux],
      dashCollapseAux_true_nondash_cons (hMnd m (by simp))
        (fun c hc => hMnd c (by simp [hc])),
      show dashCollapseAux false ('-' :: '-' :: ((d0 :: Dr) ++ Q4)) =
        '-' :: dashCollapseAux true ('-' :: ((d0 :: Dr) ++ Q4)) by
        simp [dashCollapseAux],
      show dashCollapseAux true ('-' :: ((d0 :: Dr) ++ Q4)) =
        dashCollapseAux true ((d0 :: Dr) ++ Q4) by simp [dashCollapseAux],
      dashCollapseAux_true_nondash_cons (hDnd d0 (by simp))
        (fun c hc => hDnd c (by simp [hc]))]
  have hcore : ∀ b : Bool, dashCollapseAux b ((y :: Yr) ++ ('-' :: '-' :: ((m :: Mr) ++
      '-' :: '-' :: ((d0 :: Dr) ++ Q4)))) = (y :: Yr) ++ ('-' :: ((m :: Mr) ++
      '-' :: ((d0 :: Dr) ++ dashCollapseAux false Q4))) := by
    intro b
    cases b with
    | false =>
      rw [dashCollapseAux_false_nondash_front (fun c hc => hYnd c hc), h5]
    | true =>
      rw [dashCollapseAux_true_nondash_cons (hYnd y (by simp))
        (fun c hc => hYnd c (by simp [hc])), h5]
  have hmain : dashCollapseAux false (P4 ++ ((y :: Yr) ++ ('-' :: '-' :: ((m :: Mr) ++
      '-' :: '-' :: ((d0 :: Dr) ++ Q4))))) = (if P4.isEmpty then ([] : List Char)
        else ['-']) ++ ((y :: Yr) ++ ('-' :: ((m :: Mr) ++
      '-' :: ((d0 :: Dr) ++ dashCollapseAux false Q4)))) := by
    cases P4 with
    | nil =>
      rw [List.nil_append, hcore false]
      rfl
    | cons p Pr =>
      rw [(hP p (by simp) : p = '-'), List.cons_append,
        show dashCollapseAux false ('-' :: (Pr ++ ((y :: Yr) ++ ('-' :: '-' ::
          ((m :: Mr) ++ '-' :: '-' :: ((d0 :: Dr) ++ Q4)))))) =
          '-' :: dashCollapseAux true (Pr ++ ((y :: Yr) ++ ('-' :: '-' ::
          ((m :: Mr) ++ '-' :: '-' :: ((d0 :: Dr) ++ Q4))))) by
          simp [dashCollapseAux],
        dashCollapseAux_true_alldash (fun c hc => hP c (by simp [hc])),
        hcore true]
      rfl
  have hsplit : (y :: Yr) ++ ('-' :: ((m :: Mr) ++ '-' :: ((d0 :: Dr) ++
      dashCollapseAux false Q4))) = ((y :: Yr) ++ '-' :: (m :: Mr) ++
      '-' :: (d0 :: Dr)) ++ dashCollapseAux false Q4 := by
    simp [List.append_assoc]
  have hp1 : (if P4.isEmpty then ([] : List Char) else ['-']) = [] ∨
      (if P4.isEmpty then ([] : List Char) else ['-']) = ['-'] := by
    by_cases hp : P4.isEmpty
    · rw [if_pos hp]
      exact Or.inl rfl
    · rw [if_neg hp]
      exact Or.inr rfl
  have hpads := stripDashes_pads ((y :: Yr) ++ '-' :: (m :: Mr) ++ '-' :: (d0 :: Dr))
    (if P4.isEmpty then ([] : List Char) else ['-'])
    (dashCollapseAux false Q4) hp1 (dashCollapse_false_alldash hQ)
    (by simp)
    (by
      intro c hc
      simp only [List.cons_append, List.head?_cons, Option.some.injEq] at hc
      subst hc
      exact hYnd y (by simp))
    (by
      intro c hc
      rw [show (y :: Yr) ++ '-' :: (m :: Mr) ++ '-' :: (d0 :: Dr) =
        ((y :: Yr) ++ '-' :: (m :: Mr) ++ ['-']) ++ (d0 :: Dr) by simp] at hc
      rw [reverse_head_append_right (by simp)] at hc
      have hmem : c ∈ (d0 :: Dr).reverse := List.mem_of_mem_head? (by rw [hc]; rfl)
      exact hDnd c (List.mem_reverse.mp hmem))
  simp only [List.cons_append, List.append_assoc] at hmain hpads ⊢
  rw [hmain, hpads]

theorem head_append_left {A B : List Char} (hA : A ≠ []) :
    (A ++ B).head? = A.head? := by
  cases A with
  | nil => exact absurd rfl hA
  | cons a r => rfl

theorem nd_pipeline_alldash {l : List Char} (h : ∀ c ∈ l, isPyDigit c = false) :
    ∀ c ∈ (dotDashAux false (krReplace l)).filter (fun c => isPyDigit c || c = '-'),
      c = '-' := by
  apply filter_keep_nd_alldash
  intro c hc
  rcases mem_dotDashAux hc with h2 | h2
  · subst h2
    decide
  · rcases mem_krReplace h2 with h3 | h3
    · subst h3
      decide
    · exact h c h3

theorem normalize_kr_date_some (s0 : String) :
    normalize_kr_date (some s0) =
    (if pyStrip s0.toList = [] then none
     else
       match splitOnChar '-' (stripDashes (dashCollapseAux false
           ((dotDashAux false (krReplace (pyStrip s0.toList))).filter
             (fun c => isPyDigit c || c = '-')))) with
       | [] => none
       | p0 :: rest =>
         if ¬ isdigitStr p0 then none
         else
           if dateValid (digitsVal p0)
               (match rest.head? with
                | some p1 => if isdigitStr p1 then digitsVal p1 else 1
                | none => 1)
               (match rest[1]? with
                | some p2 => if isdigitStr p2 then digitsVal p2 else 1
                | none => 1) then
             some (digitsVal p0,
               (match rest.head? with
                | some p1 => if isdigitStr p1 then digitsVal p1 else 1
                | none => 1),
               (match rest[1]? with
                | some p2 => if isdigitStr p2 then digitsVal p2 else 1
                | none => 1))
           else none) := rfl

/-- The stripped, collapsed, filtered pipeline of `normalize_kr_date` yields
only dashes on digit-free input, so the split leaves no digit field. -/
theorem normalize_kr_date_nd {s : String} (h : ∀ c ∈ s.toList, isPyDigit c = false) :
    normalize_kr_date (some s) = none := by
  rw [normalize_kr_date_some]
  by_cases hstrip : pyStrip s.toList = []
  · rw [if_pos hstrip]
  · rw [if_neg hstrip]
    have halld : ∀ c ∈ (dotDashAux false (krReplace (pyStrip s.toList))).filter
        (fun c => isPyDigit c || c = '-'), c = '-' :=
      nd_pipeline_alldash (fun c hc => h c (mem_pyStrip hc))
    rcases dashCollapse_false_alldash halld with hdc | hdc
    · rw [hdc]
      rfl
    · rw [hdc]
      rfl


theorem toList_mk (l : List Char) : String.toList ⟨l⟩ = l := rfl

theorem krReplace_append (A B : List Char) :
    krReplace (A ++ B) = krReplace A ++ krReplace B := by
  unfold krReplace
  rw [List.flatMap_append]

/-- The full normalizing pipeline of `normalize_kr_date` on a whitespace-
stripped input consisting of a `"YYYY년 M월 D일"` token surrounded by
digit-free text: the split yields exactly the three digit fields. -/
theorem kr_pipeline_core {P1 Q1 Yr Mr Dr : List Char} {y m d0 : Char}
    (hP1 : ∀ c ∈ P1, isPyDigit c = false) (hQ1 : ∀ c ∈ Q1, isPyDigit c = false)
    (hY : ∀ c ∈ y :: Yr, isPyDigit c = true)
    (hM : ∀ c ∈ m :: Mr, isPyDigit c = true)
    (hD : ∀ c ∈ d0 :: Dr, isPyDigit c = true) :
    splitOnChar '-' (stripDashes (dashCollapseAux false
      ((dotDashAux false (krReplace (P1 ++ ((y :: Yr) ++ ('년' :: ' ' ::
        ((m :: Mr) ++ ('월' :: ' ' :: ((d0 :: Dr) ++ ('일' :: Q1))))))))).filter
        (fun c => isPyDigit c || c = '-')))) =
      [y :: Yr, m :: Mr, d0 :: Dr] := by
  have h1 : krRep '년' = ['-'] := by decide
  have h2 : krRep '월' = ['-'] := by decide
  have h3 : krRep ' ' = [' '] := by decide
  have h4 : krRep '일' = ([] : List Char) := by decide
  rw [krReplace_append, krReplace_digits_append hY, krReplace_cons, krReplace_cons,
    krReplace_digits_append hM, krReplace_cons, krReplace_cons,
    krReplace_digits_append hD, krReplace_cons]
  simp only [h1, h2, h3, h4, List.singleton_append, List.nil_append]
  have hds : isDotSpace ' ' = true := by decide
  have hdd : isDotSpace '-' = false := by decide
  have hhead1 : ∀ c : Char, ((y :: Yr) ++ '-' :: ' ' :: ((m :: Mr) ++ '-' :: ' ' ::
      ((d0 :: Dr) ++ krReplace Q1))).head? = some c → isDotSpace c = false := by
    intro c hc
    rw [List.cons_append, List.head?_cons, Option.some.injEq] at hc
    subst hc
    exact not_dotspace_of_digit (hY y (by simp))
  rw [dotDashAux_append_head_fail hhead1]
  rw [dotDashAux_false_nonclass_front (fun c hc => not_dotspace_of_digit (hY c hc))]
  rw [show dotDashAux false ('-' :: ' ' :: ((m :: Mr) ++ '-' :: ' ' ::
      ((d0 :: Dr) ++ krReplace Q1))) = '-' :: '-' :: dotDashAux true ((m :: Mr) ++
      '-' :: ' ' :: ((d0 :: Dr) ++ krReplace Q1)) by
    simp [dotDashAux, hds, hdd]]
  rw [dotDashAux_nonclass_cons (not_dotspace_of_digit (hM m (by simp)))
    (fun c hc => not_dotspace_of_digit (hM c (by simp [hc]))) true]
  rw [show dotDashAux false ('-' :: ' ' :: ((d0 :: Dr) ++ krReplace Q1)) =
      '-' :: '-' :: dotDashAux true ((d0 :: Dr) ++ krReplace Q1) by
    simp [dotDashAux, hds, hdd]]
  rw [dotDashAux_nonclass_cons (not_dotspace_of_digit (hD d0 (by simp)))
    (fun c hc => not_dotspace_of_digit (hD c (by simp [hc]))) true]
  have hfd : ∀ l : List Char, ('-' :: l).filter (fun c => isPyDigit c || c = '-') =
      '-' :: l.filter (fun c => isPyDigit c || c = '-') := by
    intro l
    rw [List.filter_cons, if_pos (by decide)]
  simp only [List.filter_append, hfd, filter_keep_digits hY, filter_keep_digits hM,
    filter_keep_digits hD]
  have hsc := dashCollapse_strip_core (nd_pipeline_alldash hP1) (nd_pipeline_alldash hQ1)
    hY (by simp) hM (by simp) hD (by simp)
  simp only [List.cons_append, List.append_assoc] at hsc ⊢
  rw [hsc]
  have hYnd : ∀ c ∈ y :: Yr, c ≠ '-' := fun c hc => isPyDigit_ne (hY c hc) (by decide)
  have hMnd : ∀ c ∈ m :: Mr, c ≠ '-' := fun c hc => isPyDigit_ne (hM c hc) (by decide)
  have hDnd : ∀ c ∈ d0 :: Dr, c ≠ '-' := fun c hc => isPyDigit_ne (hD c hc) (by decide)
  rw [show (y :: (Yr ++ '-' :: (m :: (Mr ++ '-' :: (d0 :: Dr)))) : List Char) =
      (y :: Yr) ++ '-' :: ((m :: Mr) ++ '-' :: (d0 :: Dr)) by simp]
  rw [splitOnChar_append hYnd, splitOnChar_append hMnd, splitOnChar_no_sep hDnd]

/-- `normalize_kr_date` on a `"YYYY년 M월 D일"` token surrounded by digit-free
text: the result is the `(y, m, d)` triple when `datetime.date` accepts it,
and `none` otherwise. -/
theorem normalize_kr_date_token {pre post Yd Md Dd : List Char}
    (hpre : ∀ c ∈ pre, isPyDigit c = false)
    (hpost : ∀ c ∈ post, isPyDigit c = false)
    (hY : ∀ c ∈ Yd, isPyDigit c = true) (hYne : Yd ≠ [])
    (hM : ∀ c ∈ Md, isPyDigit c = true) (hMne : Md ≠ [])
    (hD : ∀ c ∈ Dd, isPyDigit c = true) (hDne : Dd ≠ []) :
    normalize_kr_date (some ⟨pre ++ (Yd ++ ('년' :: ' ' :: (Md ++ ('월' :: ' ' ::
      (Dd ++ ('일' :: post))))))⟩) =
      (if dateValid (digitsVal Yd) (digitsVal Md) (digitsVal Dd) then
        some (digitsVal Yd, digitsVal Md, digitsVal Dd)
      else none) := by
  obtain ⟨y, Yr, rfl⟩ : ∃ a r, Yd = a :: r := by
    cases Yd with
    | nil => exact absurd rfl hYne
    | cons a r => exact ⟨a, r, rfl⟩
  obtain ⟨m, Mr, rfl⟩ : ∃ a r, Md = a :: r := by
    cases Md with
    | nil => exact absurd rfl hMne
    | cons a r => exact ⟨a, r, rfl⟩
  obtain ⟨d0, Dr, rfl⟩ : ∃ a r, Dd = a :: r := by
    cases Dd with
    | nil => exact absurd rfl hDne
    | cons a r => exact ⟨a, r, rfl⟩
  have hhead : ∀ c : Char, ((y :: Yr) ++ ('년' :: ' ' :: ((m :: Mr) ++ ('월' :: ' ' ::
      ((d0 :: Dr) ++ ('일' :: post)))))).head? = some c → isPySpace c = false := by
    intro c hc
    rw [List.cons_append, List.head?_cons, Option.some.injEq] at hc
    subst hc
    exact not_space_of_digit (hY y (by simp))
  have hdw : (pre ++ ((y :: Yr) ++ ('년' :: ' ' :: ((m :: Mr) ++ ('월' :: ' ' ::
      ((d0 :: Dr) ++ ('일' :: post))))))).dropWhile isPySpace =
      pre.dropWhile isPySpace ++ ((y :: Yr) ++ ('년' :: ' ' :: ((m :: Mr) ++ ('월' :: ' ' ::
      ((d0 :: Dr) ++ ('일' :: post)))))) :=
    dropWhile_append_head_fail hhead
  have hlast : ∀ c : Char, ((pre.dropWhile isPySpace ++ ((y :: Yr) ++ ('년' :: ' ' ::
      ((m :: Mr) ++ ('월' :: ' ' :: (d0 :: Dr)))))) ++ ['일']).reverse.head? = some c →
      isPySpace c = false := by
    intro c hc
    rw [reverse_head_append_right (by simp)] at hc
    rw [show (['일'] : List Char).reverse.head? = some '일' from rfl] at hc
    rw [Option.some.injEq] at hc
    subst hc
    decide
  have hpy : pyStrip (pre ++ ((y :: Yr) ++ ('년' :: ' ' :: ((m :: Mr) ++ ('월' :: ' ' ::
      ((d0 :: Dr) ++ ('일' :: post))))))) =
      pre.dropWhile isPySpace ++ ((y :: Yr) ++ ('년' :: ' ' :: ((m :: Mr) ++ ('월' :: ' ' ::
      ((d0 :: Dr) ++ ('일' :: dropEndWhile isPySpace post)))))) := by
    unfold pyStrip
    rw [hdw]
    rw [show pre.dropWhile isPySpace ++ ((y :: Yr) ++ ('년' :: ' ' :: ((m :: Mr) ++
        ('월' :: ' ' :: ((d0 :: Dr) ++ ('일' :: post)))))) =
        ((pre.dropWhile isPySpace ++ ((y :: Yr) ++ ('년' :: ' ' :: ((m :: Mr) ++
        ('월' :: ' ' :: (d0 :: Dr)))))) ++ ['일']) ++ post by simp]
    rw [dropEndWhile_append_last_fail hlast]
    simp
  rw [normalize_kr_date_some, toList_mk, hpy]
  rw [if_neg (by simp : ¬(pre.dropWhile isPySpace ++ ((y :: Yr) ++ ('년' :: ' ' ::
    ((m :: Mr) ++ ('월' :: ' ' :: ((d0 :: Dr) ++
    ('일' :: dropEndWhile isPySpace post)))))) = []))]
  have hP1 : ∀ c ∈ pre.dropWhile isPySpace, isPyDigit c = false :=
    fun c hc => hpre c (mem_dropWhile hc)
  have hQ1 : ∀ c ∈ dropEndWhile isPySpace post, isPyDigit c = false :=
    fun c hc => hpost c (mem_dropEndWhile hc)
  rw [kr_pipeline_core hP1 hQ1 hY hM hD]
  have hdY : isdigitStr (y :: Yr) = true := by
    unfold isdigitStr
    rw [List.all_eq_true.mpr hY]
    rfl
  have hdM : isdigitStr (m :: Mr) = true := by
    unfold isdigitStr
    rw [List.all_eq_true.mpr hM]
    rfl
  have hdD : isdigitStr (d0 :: Dr) = true := by
    unfold isdigitStr
    rw [List.all_eq_true.mpr hD]
    rfl
  simp [hdY, hdM, hdD]

/-- C4 counterexample: the claim says every input containing a Korean date
token of the form `"YYYY년 M월 D일"` yields a date value, but
`"1 2025년 1월 3일"` contains the token `"2025년 1월 3일"` (the whole input is
`"1 "` followed by that token) while `normalize_kr_date` returns `none`: the
stray leading digit becomes the year field, `2025` becomes the month field,
and `datetime.date` rejects month 2025. -/
theorem C4_counterexample :
    "1 2025년 1월 3일".toList = "1 ".toList ++ "2025년 1월 3일".toList ∧
    normalize_kr_date (some "2025년 1월 3일") = some (2025, 1, 3) ∧
    normalize_kr_date (some "1 2025년 1월 3일") = none := by
  refine ⟨rfl, ?_, ?_⟩ <;> decide

/-- C4 (amended): `normalize_kr_date` is total and never raises, but the
token rule needs a qualification: a missing value maps to `none`; an input
with no digit at all (in particular the empty string and non-date text) maps
to `none`; and an input that is exactly a `"YYYY년 M월 D일"` token surrounded
by digit-free text maps to the `(y, m, d)` triple provided `datetime.date`
accepts those numbers.  The unqualified claim fails when extra digits
surround the token, or when the token is not a valid calendar date. -/
theorem C4_kr_date_normalization :
    normalize_kr_date none = none ∧
    (∀ s : String, (∀ c ∈ s.toList, isPyDigit c = false) →
      normalize_kr_date (some s) = none) ∧
    (∀ pre post Yd Md Dd : List Char,
      (∀ c ∈ pre, isPyDigit c = false) → (∀ c ∈ post, isPyDigit c = false) →
      (∀ c ∈ Yd, isPyDigit c = true) → Yd ≠ [] →
      (∀ c ∈ Md, isPyDigit c = true) → Md ≠ [] →
      (∀ c ∈ Dd, isPyDigit c = true) → Dd ≠ [] →
      dateValid (digitsVal Yd) (digitsVal Md) (digitsVal Dd) →
      normalize_kr_date (some ⟨pre ++ (Yd ++ ('년' :: ' ' :: (Md ++ ('월' :: ' ' ::
        (Dd ++ ('일' :: post))))))⟩) =
        some (digitsVal Yd, digitsVal Md, digitsVal Dd)) := by
  refine ⟨rfl, fun s h => normalize_kr_date_nd h, ?_⟩
  intro pre post Yd Md Dd hpre hpost hY hYne hM hMne hD hDne hvalid
  rw [normalize_kr_date_token hpre hpost hY hYne hM hMne hD hDne, if_pos hvalid]

/-- C4 witness: the token `"2025년 1월 3일"` with empty surrounding text
normalizes to `(2025, 1, 3)`. -/
theorem C4_witness :
    normalize_kr_date (some "2025년 1월 3일") = some (2025, 1, 3) := by
  have h := C4_kr_date_normalization.2.2 [] [] ['2', '0', '2', '5'] ['1'] ['3']
    (by decide) (by decide) (by decide) (by decide) (by decide) (by decide)
    (by decide) (by decide) (by decide)
  exact h.trans (by decide)
